import Mathlib

/-
Shallow embedding of the Akash transaction subsystem, translated from
src/python/src/akash_api/transaction.py and src/python/src/akash_api/async_client.py.

Python values that flow through json.dumps are modelled by the mutual
inductive family PyVal / PyList / PyDict below.  Python str is modelled by
Lean String (rendering functions work on the underlying character lists);
Python bytes by List Nat (one entry per byte); Python int by Int.
-/

namespace AkashApi

/-! ### Decimal rendering, modelling Python str() on integers -/

/-- Character for a decimal digit: code 48 + d (d is taken mod 10). -/
def digitChar (d : Nat) : Char := Char.ofNat (48 + d % 10)

/-- Digits of n, most significant first, accumulated with explicit fuel
(fuel ≥ number of digits; callers pass n+1). -/
def natCharsAux : Nat → Nat → List Char
  | 0, _ => []
  | fuel + 1, n => if n = 0 then [] else natCharsAux fuel (n / 10) ++ [digitChar (n % 10)]

/-- Decimal representation of a natural number, as Python str() renders it. -/
def natChars (n : Nat) : List Char :=
  if n = 0 then [digitChar 0] else natCharsAux (n + 1) n

def natStr (n : Nat) : String := ⟨natChars n⟩

/-- Decimal representation of an integer, as Python str() renders it. -/
def intChars : Int → List Char
  | .ofNat m => natChars m
  | .negSucc m => Char.ofNat 45 :: natChars (m + 1)

def intStr (n : Int) : String := ⟨intChars n⟩

/-- Numeric value of a digit character. -/
def charDigit (c : Char) : Nat := c.toNat - 48

/-- Decode a big-endian digit string (left inverse of natChars). -/
def listDecode (l : List Char) : Nat := l.foldl (fun acc c => 10 * acc + charDigit c) 0

/-! ### JSON string escaping (json.dumps with its default ensure_ascii=True) -/

/-- Lower-case hexadecimal digit character. -/
def hexDigit (n : Nat) : Char :=
  if n % 16 < 10 then Char.ofNat (48 + n % 16) else Char.ofNat (87 + n % 16)

/-- Four-digit lower-case hex, as in a \u escape. -/
def hex4 (n : Nat) : List Char :=
  [hexDigit (n / 4096), hexDigit (n / 256), hexDigit (n / 16), hexDigit n]

/-- Escape of one character in a JSON string literal: the two-character short
escapes, \u00xx for other control characters, \u escapes (with surrogate
pairs) for non-ASCII, and the character itself otherwise. -/
def escapeChar (c : Char) : List Char :=
  let n := c.toNat
  if n = 34 then [Char.ofNat 92, Char.ofNat 34]
  else if n = 92 then [Char.ofNat 92, Char.ofNat 92]
  else if n = 10 then [Char.ofNat 92, Char.ofNat 110]
  else if n = 9 then [Char.ofNat 92, Char.ofNat 116]
  else if n = 13 then [Char.ofNat 92, Char.ofNat 114]
  else if n = 8 then [Char.ofNat 92, Char.ofNat 98]
  else if n = 12 then [Char.ofNat 92, Char.ofNat 102]
  else if n < 32 ∨ n > 126 then
    if n < 65536 then Char.ofNat 92 :: Char.ofNat 117 :: hex4 n
    else
      (Char.ofNat 92 :: Char.ofNat 117 :: hex4 (55296 + (n - 65536) / 1024)) ++
        (Char.ofNat 92 :: Char.ofNat 117 :: hex4 (56320 + (n - 65536) % 1024))
  else [c]

def escapeChars : List Char → List Char
  | [] => []
  | c :: l => escapeChar c ++ escapeChars l

/-- A JSON string literal: quote, escaped content, quote. -/
def quoteChars (l : List Char) : List Char :=
  Char.ofNat 34 :: (escapeChars l ++ [Char.ofNat 34])

/-! ### base64.b64encode -/

/-- Character of the standard base64 alphabet at index n (n < 64). -/
def b64Char (n : Nat) : Char :=
  if n < 26 then Char.ofNat (65 + n)
  else if n < 52 then Char.ofNat (97 + (n - 26))
  else if n < 62 then Char.ofNat (48 + (n - 52))
  else if n = 62 then Char.ofNat 43
  else Char.ofNat 47

/-- Standard base64 encoding of a byte list, with padding. -/
def b64encode : List Nat → List Char
  | [] => []
  | [a] => [b64Char (a / 4), b64Char (a % 4 * 16), '=', '=']
  | [a, b] => [b64Char (a / 4), b64Char (a % 4 * 16 + b / 16), b64Char (b % 16 * 4), '=']
  | a :: b :: c :: rest =>
      b64Char (a / 4) :: b64Char (a % 4 * 16 + b / 16) ::
        b64Char (b % 16 * 4 + c / 64) :: b64Char (c % 64) :: b64encode rest

def b64str (l : List Nat) : String := ⟨b64encode l⟩

/-- UTF-8 bytes of ASCII text (json.dumps output with ensure_ascii=True is
pure ASCII, where the UTF-8 bytes are exactly the code points). -/
def textBytes (l : List Char) : List Nat := l.map Char.toNat

/-! ### Python str.replace (for a non-empty pattern) -/

def replaceAux (pat rep : List Char) : Nat → List Char → List Char
  | 0, l => l
  | _ + 1, [] => []
  | fuel + 1, c :: rest =>
      if pat.isPrefixOf (c :: rest) then
        rep ++ replaceAux pat rep fuel (List.drop (pat.length - 1) rest)
      else c :: replaceAux pat rep fuel rest

/-- Python s.replace(pat, rep): replace every non-overlapping occurrence of
the (non-empty) pattern, scanning left to right. -/
def pyReplace (s pat rep : String) : String :=
  ⟨replaceAux pat.data rep.data s.data.length s.data⟩

/-! ### Python values -/

mutual
inductive PyVal : Type where
  | str (s : String)
  | int (n : Int)
  | bool (b : Bool)
  | pyNone
  | bytes (b : List Nat)
  | list (l : PyList)
  | dict (d : PyDict)
inductive PyList : Type where
  | nil
  | cons (v : PyVal) (tl : PyList)
inductive PyDict : Type where
  | nil
  | cons (k : String) (v : PyVal) (tl : PyDict)
end

def PyList.ofList : List PyVal → PyList
  | [] => .nil
  | v :: l => .cons v (PyList.ofList l)

def PyDict.ofList : List (String × PyVal) → PyDict
  | [] => .nil
  | (k, v) :: l => .cons k v (PyDict.ofList l)

/-- First binding of a key (Python dict keys are unique). -/
def PyDict.lookup : PyDict → String → Option PyVal
  | .nil, _ => none
  | .cons k v tl, key => if k = key then some v else PyDict.lookup tl key

/-- Python d[key] = v: overwrite in place if present, else append. -/
def PyDict.set : PyDict → String → PyVal → PyDict
  | .nil, key, v => .cons key v .nil
  | .cons k w tl, key, v =>
      if k = key then .cons k v tl else .cons k w (PyDict.set tl key v)

/-- Drop every binding of a key (helper for stating theorems). -/
def PyDict.removeKey : PyDict → String → PyDict
  | .nil, _ => .nil
  | .cons k v tl, key =>
      if k = key then PyDict.removeKey tl key else .cons k v (PyDict.removeKey tl key)

/-! ### Key ordering (Python compares str by code points) -/

/-- Lexicographic strict order on character lists by code point, as Python
compares strings. -/
def lexLt : List Char → List Char → Bool
  | [], [] => false
  | [], _ :: _ => true
  | _ :: _, [] => false
  | a :: l, b :: m =>
      if a.toNat < b.toNat then true
      else if b.toNat < a.toNat then false
      else lexLt l m

def keyLe (s t : String) : Bool := !(lexLt t.data s.data)

/-- Order on keyed pairs used by sort_keys=True (compares only the key). -/
def keyRel {α : Type} (p q : String × α) : Prop := keyLe p.1 q.1 = true

instance keyRelDecidable {α : Type} : DecidableRel (@keyRel α) :=
  fun p q => Bool.decEq (keyLe p.1 q.1) true

/-- Sort key/value pairs by key (Python's sorted() is stable, as is
insertion sort, so the two agree on every input). -/
def sortPairs {α : Type} (ps : List (String × α)) : List (String × α) :=
  List.insertionSort keyRel ps

/-! ### json.dumps -/

/- Does a value contain a bytes object anywhere?  json.dumps raises
TypeError exactly on such values (the only non-serializable leaves here). -/
mutual
def PyVal.hasBytes : PyVal → Bool
  | .bytes _ => true
  | .list l => PyList.hasBytes l
  | .dict d => PyDict.hasBytes d
  | _ => false
def PyList.hasBytes : PyList → Bool
  | .nil => false
  | .cons v tl => PyVal.hasBytes v || PyList.hasBytes tl
def PyDict.hasBytes : PyDict → Bool
  | .nil => false
  | .cons _ v tl => PyVal.hasBytes v || PyDict.hasBytes tl
end

def joinSep (sep : List Char) : List (List Char) → List Char
  | [] => []
  | [x] => x
  | x :: y :: ys => x ++ sep ++ joinSep sep (y :: ys)

/- Text produced by json.dumps for a bytes-free value: sI is the item
separator, sKV the key separator, sk the sort_keys flag.  Dict entries are
rendered and then sorted by key when sk is set; since sorting compares keys
only and rendering keeps keys, this yields exactly the text json.dumps
produces by sorting first.  The bytes case is unreachable under the
hasBytes guard in dumps. -/
mutual
def renderVal (sk : Bool) (sI sKV : List Char) : PyVal → List Char
  | .str s => quoteChars s.data
  | .int n => intChars n
  | .bool b => if b then ['t', 'r', 'u', 'e'] else ['f', 'a', 'l', 's', 'e']
  | .pyNone => ['n', 'u', 'l', 'l']
  | .bytes _ => []
  | .list l => '[' :: (joinSep sI (renderList sk sI sKV l) ++ [']'])
  | .dict d =>
      let ps := renderEntries sk sI sKV d
      let ps := if sk then sortPairs ps else ps
      Char.ofNat 123 ::
        (joinSep sI (ps.map fun p => quoteChars p.1.data ++ sKV ++ p.2) ++ [Char.ofNat 125])
def renderList (sk : Bool) (sI sKV : List Char) : PyList → List (List Char)
  | .nil => []
  | .cons v tl => renderVal sk sI sKV v :: renderList sk sI sKV tl
def renderEntries (sk : Bool) (sI sKV : List Char) : PyDict → List (String × List Char)
  | .nil => []
  | .cons k v tl => (k, renderVal sk sI sKV v) :: renderEntries sk sI sKV tl
end

/-- CPython's message for json.dumps on a bytes object. -/
def typeErrorBytes : String := "Object of type bytes is not JSON serializable"

/-- Exception classes raised by the modelled code paths. -/
inductive PyErr : Type where
  | typeError (msg : String)
  | keyError (key : String)
  | valueError (msg : String)
  | attributeError (msg : String)
  | overflowError (msg : String)
  | akashTransactionError (msg : String)

/-- json.dumps(v, sort_keys=sk, separators=(sI, sKV)): TypeError on any
bytes value, otherwise the rendered text. -/
def dumps (sk : Bool) (sI sKV : List Char) (v : PyVal) : Except PyErr String :=
  if v.hasBytes then .error (.typeError typeErrorBytes) else .ok ⟨renderVal sk sI sKV v⟩

/-- json.dumps default separators. -/
def sepItemD : List Char := [',', ' ']
def sepKVD : List Char := [':', ' ']
/-- The compact separators (',', ':') used for the signing payload. -/
def sepItemC : List Char := [',']
def sepKVC : List Char := [':']

/-! ### Python repr / str, for the f-string in broadcast_transaction -/

/-- Escape one character inside a Python repr literal with quote q:
backslash-escapes for the quote, backslash, newline, carriage return and
tab, \xhh for other non-printable ASCII; other characters stand for
themselves (Python also keeps printable non-ASCII text as-is). -/
def reprEscChar (q : Char) (c : Char) : List Char :=
  let n := c.toNat
  if c = q ∨ n = 92 then [Char.ofNat 92, c]
  else if n = 10 then [Char.ofNat 92, 'n']
  else if n = 13 then [Char.ofNat 92, 'r']
  else if n = 9 then [Char.ofNat 92, 't']
  else if n < 32 ∨ n = 127 then [Char.ofNat 92, 'x', hexDigit (n / 16), hexDigit n]
  else [c]

def reprEscChars (q : Char) : List Char → List Char
  | [] => []
  | c :: l => reprEscChar q c ++ reprEscChars q l

/-- Python repr of a str: single-quoted, except double-quoted when the text
contains a single quote and no double quote. -/
def reprStr (l : List Char) : List Char :=
  let q := if l.contains (Char.ofNat 39) && !(l.contains (Char.ofNat 34))
    then Char.ofNat 34 else Char.ofNat 39
  q :: (reprEscChars q l ++ [q])

/-- Python repr of one byte inside a bytes literal (quote choice fixed to
the single quote used for the byte strings that occur here). -/
def reprByte (n : Nat) : List Char :=
  if n = 39 ∨ n = 92 then [Char.ofNat 92, Char.ofNat n]
  else if n = 10 then [Char.ofNat 92, 'n']
  else if n = 13 then [Char.ofNat 92, 'r']
  else if n = 9 then [Char.ofNat 92, 't']
  else if 32 ≤ n ∧ n ≤ 126 then [Char.ofNat n]
  else [Char.ofNat 92, 'x', hexDigit (n / 16), hexDigit n]

def reprBytes : List Nat → List Char
  | [] => []
  | n :: l => reprByte n ++ reprBytes l

/- Python repr of a value: dict and list render in insertion order with
", " between items and ": " between key and value. -/
mutual
def reprVal : PyVal → List Char
  | .str s => reprStr s.data
  | .int n => intChars n
  | .bool b => if b then ['T', 'r', 'u', 'e'] else ['F', 'a', 'l', 's', 'e']
  | .pyNone => ['N', 'o', 'n', 'e']
  | .bytes b => 'b' :: Char.ofNat 39 :: (reprBytes b ++ [Char.ofNat 39])
  | .list l => '[' :: (joinSep [',', ' '] (reprList l) ++ [']'])
  | .dict d => Char.ofNat 123 :: (joinSep [',', ' '] (reprDict d) ++ [Char.ofNat 125])
def reprList : PyList → List (List Char)
  | .nil => []
  | .cons v tl => reprVal v :: reprList tl
def reprDict : PyDict → List (List Char)
  | .nil => []
  | .cons k v tl => (reprStr k.data ++ (':' :: ' ' :: reprVal v)) :: reprDict tl
end

/-- Python str() of a value, as an f-string formats it: a str stands for
itself, every other value formats as its repr. -/
def pyStrOf : PyVal → String
  | .str s => s
  | v => ⟨reprVal v⟩

/-! ### Data structures of transaction.py -/

/-- Wallet dataclass: raw key bytes and the bech32 address text. -/
structure Wallet : Type where
  private_key : List Nat
  public_key : List Nat
  address : String

/-- TransactionInfo dataclass. -/
structure TransactionInfo : Type where
  chain_id : String
  account_number : Nat
  sequence : Nat
  fee : PyVal
  memo : String

/-! ### Message builders (AkashTransactionSigner.create_*_msg) -/

def uakt : String := "uakt"

/-- A one-field dict, abbreviating the deeply nested group literal. -/
def dict1 (k : String) (v : PyVal) : PyVal := .dict (.ofList [(k, v)])

/-- _sdl_to_groups: the source ignores the SDL and returns this fixed
placeholder group list. -/
def sdl_to_groups (_sdl : PyVal) : PyVal :=
  .list (.ofList [.dict (.ofList [
    ("name", .str "default"),
    ("requirements", dict1 "signed_by" (.dict (.ofList [
      ("all_of", .list .nil),
      ("any_of", .list .nil)]))),
    ("resources", .list (.ofList [.dict (.ofList [
      ("resources", .dict (.ofList [
        ("cpu", dict1 "units" (dict1 "val" (.str "1000"))),
        ("memory", dict1 "quantity" (dict1 "val" (.str "1073741824"))),
        ("storage", .list (.ofList [.dict (.ofList [
          ("name", .str "default"),
          ("quantity", dict1 "val" (.str "1073741824"))])]))])),
      ("count", .int 1),
      ("price", .dict (.ofList [
        ("denom", .str uakt),
        ("amount", .str "1000")]))])]))])])

/-- create_deployment_msg: the version field is
base64(json.dumps(sdl)) (no key sorting there), so the builder fails
exactly when dumping the SDL fails; no other validation happens. -/
def create_deployment_msg (owner : String) (sdl : PyVal) (deposit : String) :
    Except PyErr PyVal :=
  (dumps false sepItemD sepKVD sdl).map fun sdlJson =>
    .dict (.ofList [
      ("@type", .str "/akash.deployment.v1beta3.MsgCreateDeployment"),
      ("id", .dict (.ofList [("owner", .str owner), ("dseq", .str "0")])),
      ("groups", sdl_to_groups sdl),
      ("version", .str (b64str (textBytes sdlJson.data))),
      ("deposit", .dict (.ofList [
        ("denom", .str uakt),
        ("amount", .str (pyReplace deposit uakt ""))])),
      ("depositor", .str owner)])

/-- create_bid_msg: no validation of the price string; every occurrence of
"uakt" is stripped and the remainder becomes the amount. -/
def create_bid_msg (bidder : String) (order_id : PyVal) (price : String) : PyVal :=
  .dict (.ofList [
    ("@type", .str "/akash.market.v1beta4.MsgCreateBid"),
    ("order", order_id),
    ("provider", .str bidder),
    ("price", .dict (.ofList [
      ("denom", .str uakt),
      ("amount", .str (pyReplace price uakt ""))]))])

/-- create_lease_msg (tenant and provider are accepted and ignored, as in
the source). -/
def create_lease_msg (_tenant _provider : String) (bid_id : PyVal) : PyVal :=
  .dict (.ofList [
    ("@type", .str "/akash.market.v1beta4.MsgCreateLease"),
    ("bid_id", bid_id)])

/-! ### Transaction assembly (create_transaction) -/

/-! ### IEEE-754 binary64 arithmetic, as CPython performs the fee product

gas_amount = int(float(gas_price string) * gas_limit) computes in doubles:
the gas limit is converted to a double (round to nearest, ties to even;
OverflowError at 2¹⁰²⁴), multiplied by the gas-price double with the same
rounding (overflow yields infinity), and truncated toward zero by int()
(OverflowError on infinity).  A finite double is carried as a pair
(num, exp) denoting num × 2^exp with |num| ≤ 2⁵³. -/

/-- Number of binary digits of n (fuel-based; callers pass fuel n+1). -/
def bitLenAux : Nat → Nat → Nat
  | 0, _ => 0
  | fuel + 1, n => if n = 0 then 0 else bitLenAux fuel (n / 2) + 1

def bitLen (n : Nat) : Nat := bitLenAux (n + 1) n

/-- Round n / d (d > 0) to the nearest integer, ties to the even one. -/
def rhe (n d : ℤ) : ℤ :=
  if 2 * (n % d) < d then n / d
  else if d < 2 * (n % d) then n / d + 1
  else if n / d % 2 = 0 then n / d else n / d + 1

/-- Round the dyadic value n × 2^e to 53 significant bits (round to
nearest, ties to even), with the subnormal granularity floor at 2⁻¹⁰⁷⁴;
the result pair denotes the rounded value, not in canonical form. -/
def roundDyadic (n e : ℤ) : ℤ × ℤ :=
  if n = 0 then (0, 0)
  else if max ((bitLen n.natAbs : ℤ) - 1 + e - 52) (-1074) ≤ e then (n, e)
  else (rhe n (2 ^ (max ((bitLen n.natAbs : ℤ) - 1 + e - 52) (-1074) - e).toNat),
        max ((bitLen n.natAbs : ℤ) - 1 + e - 52) (-1074))

/-- Does the value m × 2^ex fall outside the finite double range
(|value| ≥ 2¹⁰²⁴)? -/
def dblOverflow (m ex : ℤ) : Bool :=
  if 1024 ≤ ex then decide (m ≠ 0)
  else decide (2 ^ (1024 - ex).toNat ≤ m.natAbs)

/-- A CPython float as it appears in this computation: finite or infinite
(float multiplication overflows to infinity without raising). -/
inductive PyFloat : Type where
  | finite (num exp : ℤ)
  | inf (neg : Bool)

/-- float(n) for an int n: rounds to the nearest double, raising
OverflowError when the rounded magnitude reaches 2¹⁰²⁴. -/
def floatOfInt (n : ℤ) : Except PyErr (ℤ × ℤ) :=
  if dblOverflow (roundDyadic n 0).1 (roundDyadic n 0).2
  then .error (.overflowError "int too large to convert to float")
  else .ok (roundDyadic n 0)

/-- IEEE double multiplication of finite operands: the exact product
rounded, overflowing to infinity. -/
def floatMul (a b : ℤ × ℤ) : PyFloat :=
  if dblOverflow (roundDyadic (a.1 * b.1) (a.2 + b.2)).1 (roundDyadic (a.1 * b.1) (a.2 + b.2)).2
  then .inf (decide (a.1 * b.1 < 0))
  else .finite (roundDyadic (a.1 * b.1) (a.2 + b.2)).1 (roundDyadic (a.1 * b.1) (a.2 + b.2)).2

/-- Python int() on a float: truncation toward zero; OverflowError on
infinity. -/
def pyIntOfFloat : PyFloat → Except PyErr ℤ
  | .inf _ => .error (.overflowError "cannot convert float infinity to integer")
  | .finite m ex => .ok (if 0 ≤ ex then m * 2 ^ ex.toNat else m.tdiv (2 ^ (-ex).toNat))

/-- The double float("0.025") for the default gas price "0.025uakt":
exactly 7205759403792794 × 2⁻⁵⁸ = (1/40)(1 + 2⁻⁵⁴); note
40 × 7205759403792794 = 2⁵⁸ + 16. -/
def gasPriceDefault : ℤ × ℤ := (7205759403792794, -58)

/-- gas_amount = int(float(gas_price without "uakt") * gas_limit), in
IEEE doubles as CPython evaluates it. -/
def gas_amount (gp : ℤ × ℤ) (gas_limit : ℤ) : Except PyErr ℤ := do
  let d ← floatOfInt gas_limit
  pyIntOfFloat (floatMul gp d)

/-- The auth_info object assembled by create_transaction; amt is the
already-computed fee amount (line 209 of the source computes it before the
transaction literal is built). -/
def auth_info_val (amt : ℤ) (w : Wallet) (gas_limit : ℤ) (sequence : Nat) : PyVal :=
  .dict (.ofList [
    ("signer_infos", .list (.ofList [.dict (.ofList [
      ("public_key", .dict (.ofList [
        ("@type", .str "/cosmos.crypto.secp256k1.PubKey"),
        ("key", .str (b64str w.public_key))])),
      ("mode_info", .dict (.ofList [
        ("single", .dict (.ofList [("mode", .str "SIGN_MODE_DIRECT")]))])),
      ("sequence", .str (natStr sequence))])])),
    ("fee", .dict (.ofList [
      ("amount", .list (.ofList [.dict (.ofList [
        ("denom", .str uakt),
        ("amount", .str (intStr amt))])])),
      ("gas_limit", .str (intStr gas_limit)),
      ("payer", .str ""),
      ("granter", .str "")]))])

/-- create_transaction: computes the fee from gas price and gas limit in
double arithmetic and assembles the transaction dict.  It validates
nothing; the only failure is the OverflowError the fee computation can
raise on astronomically large gas limits. -/
def create_transaction (gp : ℤ × ℤ) (w : Wallet) (messages : List PyVal)
    (tx_info : TransactionInfo) (gas_limit : ℤ) : Except PyErr PyVal :=
  (gas_amount gp gas_limit).map fun amt =>
    .dict (.ofList [
      ("body", .dict (.ofList [
        ("messages", .list (.ofList messages)),
        ("memo", .str tx_info.memo),
        ("timeout_height", .str "0"),
        ("extension_options", .list .nil),
        ("non_critical_extension_options", .list .nil)])),
      ("auth_info", auth_info_val amt w gas_limit tx_info.sequence),
      ("signatures", .list .nil)])

/-! ### Signing (sign_transaction) -/

/-- transaction[key]: KeyError when the key is absent, TypeError when the
value is not a dict. -/
def getItem (v : PyVal) (k : String) : Except PyErr PyVal :=
  match v with
  | .dict d =>
      match d.lookup k with
      | some x => .ok x
      | none => .error (.keyError k)
  | _ => .error (.typeError "object is not subscriptable")

/-- d[key] = v for a dict value; TypeError otherwise. -/
def setItem (v : PyVal) (k : String) (x : PyVal) : Except PyErr PyVal :=
  match v with
  | .dict d => .ok (.dict (d.set k x))
  | _ => .error (.typeError "object does not support item assignment")

/-- _encode_body: json.dumps(body, sort_keys=True).encode(). -/
def encode_body (body : PyVal) : Except PyErr (List Nat) :=
  (dumps true sepItemD sepKVD body).map fun s => textBytes s.data

/-- _encode_auth_info: json.dumps(auth_info, sort_keys=True).encode(). -/
def encode_auth_info (auth_info : PyVal) : Except PyErr (List Nat) :=
  (dumps true sepItemD sepKVD auth_info).map fun s => textBytes s.data

/-- The sign_doc dict built in sign_transaction: its body_bytes and
auth_info_bytes values are Python bytes objects. -/
def sign_doc (bodyBytes authBytes : List Nat) (tx_info : TransactionInfo) : PyVal :=
  .dict (.ofList [
    ("body_bytes", .bytes bodyBytes),
    ("auth_info_bytes", .bytes authBytes),
    ("chain_id", .str tx_info.chain_id),
    ("account_number", .str (natStr tx_info.account_number))])

/-- Lines 261-270 of transaction.py up to sign_bytes:
json.dumps(sign_doc, sort_keys=True, separators=(",", ":")).encode(). -/
def sign_bytes (transaction : PyVal) (tx_info : TransactionInfo) :
    Except PyErr (List Nat) := do
  let body ← getItem transaction "body"
  let auth ← getItem transaction "auth_info"
  let bodyBytes ← encode_body body
  let authBytes ← encode_auth_info auth
  (dumps true sepItemC sepKVC (sign_doc bodyBytes authBytes tx_info)).map
    fun s => textBytes s.data

/-- sign_transaction.  The external crypto primitives are parameters:
sha256 models hashlib.sha256, ecdsaSign models
ecdsa.SigningKey.sign(digest, hashfunc=sha256) applied to (private key,
digest, entropy), where entropy is the random nonce material the ecdsa
library draws internally on each call (the source requests no
deterministic nonce).  Every theorem below quantifies over them because
json.dumps raises TypeError on the bytes fields of sign_doc before any of
them is consulted. -/
def sign_transaction (sha256 : List Nat → List Nat)
    (ecdsaSign : List Nat → List Nat → List Nat → List Nat) (entropy : List Nat)
    (w : Wallet) (transaction : PyVal) (tx_info : TransactionInfo) :
    Except PyErr PyVal := do
  let sb ← sign_bytes transaction tx_info
  let digest := sha256 sb
  let signature := ecdsaSign w.private_key digest entropy
  setItem transaction "signatures" (.list (.ofList [.str (b64str signature)]))

/-! ### Broadcast response interpretation (broadcast_transaction) -/

/-- Lines 304-309: a parsed JSON-object response with an "error" field
raises the module's generic AkashTransactionError whose message embeds the
f-string rendering of the error value; otherwise result["result"] is
returned (KeyError when absent). -/
def broadcast_interpret (result : PyDict) : Except PyErr PyVal :=
  match result.lookup "error" with
  | some e => .error (.akashTransactionError ("Broadcast failed: " ++ pyStrOf e))
  | none =>
      match result.lookup "result" with
      | some r => .ok r
      | none => .error (.keyError "result")

/-! ### Account resolution (AkashAsyncClient._get_account_info) -/

def isDigitChar (c : Char) : Bool := 48 ≤ c.toNat && c.toNat ≤ 57

/-- Python int() on a canonical decimal string (an optional minus sign and
a non-empty digit run; chain JSON carries numbers in this form). -/
def parseIntChars : List Char → Option Int
  | [] => none
  | c :: rest =>
      if c = Char.ofNat 45 then
        if rest ≠ [] ∧ rest.all isDigitChar then some (-(listDecode rest : Int)) else none
      else if (c :: rest).all isDigitChar then some (listDecode (c :: rest) : Int)
      else none

/-- Python int(v) for the value shapes that reach it here. -/
def pyToInt (v : PyVal) : Except PyErr Int :=
  match v with
  | .int n => .ok n
  | .bool b => .ok (if b then 1 else 0)
  | .str s =>
      match parseIntChars s.data with
      | some n => .ok n
      | none => .error (.valueError "invalid literal for int() with base 10")
  | _ => .error (.typeError "int() argument must be a string or a number")

/-- _get_account_info response handling: data.get("account", {}) followed
by int(account.get("account_number", 0)) and int(account.get("sequence",
0)); the returned pair is (account_number, sequence). -/
def get_account_info (data : PyDict) : Except PyErr (Int × Int) :=
  match (data.lookup "account").getD (.dict .nil) with
  | .dict acct => do
      let an ← pyToInt ((acct.lookup "account_number").getD (.int 0))
      let seq ← pyToInt ((acct.lookup "sequence").getD (.int 0))
      .ok (an, seq)
  | _ => .error (.attributeError "object has no attribute get")

/-! ### Key-order normalization (for stating canonicalization stability) -/

/- Recursively sort every dict of a value by key.  Two values are
key-order equivalent (they hold the same field values, possibly inserted
in different key orders) exactly when they normalize identically. -/
mutual
def PyVal.normalize : PyVal → PyVal
  | .list l => .list (PyList.normalize l)
  | .dict d => .dict (PyDict.ofList (sortPairs (PyDict.normEntries d)))
  | v => v
def PyList.normalize : PyList → PyList
  | .nil => .nil
  | .cons v tl => .cons (PyVal.normalize v) (PyList.normalize tl)
def PyDict.normEntries : PyDict → List (String × PyVal)
  | .nil => []
  | .cons k v tl => (k, PyVal.normalize v) :: PyDict.normEntries tl
end

/-- Key-order equivalence of Python values. -/
def jsonEquiv (a b : PyVal) : Prop := a.normalize = b.normalize

/-! ### Concrete inputs used by witnesses and counterexamples -/

/-- A concrete wallet (raw key data; no claim depends on key derivation). -/
def w0 : Wallet :=
  { private_key := List.replicate 32 17
    public_key := 2 :: List.replicate 32 17
    address := "akash1testaddress" }

/-- Concrete transaction metadata. -/
def info0 : TransactionInfo :=
  { chain_id := "akashnet-2", account_number := 5, sequence := 2, fee := .dict .nil, memo := "" }

/-- info0 with only the sequence changed. -/
def info1 : TransactionInfo :=
  { chain_id := "akashnet-2", account_number := 5, sequence := 3, fee := .dict .nil, memo := "" }

/-- A minimal transaction-shaped dict for evaluating sign_transaction. -/
def tx10 : PyVal :=
  .dict (.ofList [
    ("body", .dict .nil),
    ("auth_info", .dict .nil),
    ("signatures", .list .nil)])

/-- The transaction assembled from no messages with gas limit 0 (the
assembler succeeds; the fallback arm is never hit). -/
def ctx0 : PyVal :=
  match create_transaction gasPriceDefault w0 [] info0 0 with
  | .ok t => t
  | .error _ => .pyNone

/-- The transaction assembled from no messages with gas limit 100001. -/
def ctxFee : PyVal :=
  match create_transaction gasPriceDefault w0 [] info0 100001 with
  | .ok t => t
  | .error _ => .pyNone

/-- The transaction assembled at gas limit 200000 with sequence 2. -/
def tx200k : PyVal :=
  match create_transaction gasPriceDefault w0 [] info0 200000 with
  | .ok t => t
  | .error _ => .pyNone

/-- The transaction assembled at gas limit 200000 with sequence 3. -/
def tx200k1 : PyVal :=
  match create_transaction gasPriceDefault w0 [] info1 200000 with
  | .ok t => t
  | .error _ => .pyNone

/-- Whether a call returned normally rather than raising. -/
def isOkB {α : Type} : Except PyErr α → Bool
  | .ok _ => true
  | .error _ => false

/-- Chained subscripting v[k1][k2]…, for stating where fields sit. -/
def pathGet (v : PyVal) : List String → Except PyErr PyVal
  | [] => .ok v
  | k :: ks =>
      match getItem v k with
      | .ok x => pathGet x ks
      | .error e => .error e

/-- Drop one key of a dict value (helper for stating theorems). -/
def removeKeyV : PyVal → String → PyVal
  | .dict d, k => .dict (d.removeKey k)
  | v, _ => v

/-- The deployment message built from owner "akash1o", the empty SDL and
deposit "abcuakt" (its builder succeeds; the fallback arm is never hit). -/
def c8msg : PyVal :=
  match create_deployment_msg "akash1o" (.dict .nil) "abcuakt" with
  | .ok m => m
  | .error _ => .pyNone

/-- Deployment message for the empty SDL (for the C9 witness). -/
def c9m1 : PyVal :=
  match create_deployment_msg "akash1o" (.dict .nil) "10000000uakt" with
  | .ok m => m
  | .error _ => .pyNone

/-- Deployment message for a different SDL (for the C9 witness). -/
def c9m2 : PyVal :=
  match create_deployment_msg "akash1o" (.dict (.ofList [("services", .str "web")])) "10000000uakt" with
  | .ok m => m
  | .error _ => .pyNone

/-! ## Lemmas about the embedding -/

theorem except_bind_ok {α β : Type} (a : α) (f : α → Except PyErr β) :
    (Except.ok a : Except PyErr α) >>= f = f a := rfl

theorem except_bind_error {α β : Type} (e : PyErr) (f : α → Except PyErr β) :
    (Except.error e : Except PyErr α) >>= f = .error e := rfl

theorem digitChar_toNat (d : Nat) : (digitChar d).toNat = 48 + d % 10 := by
  have h : d % 10 < 10 := Nat.mod_lt _ (by norm_num)
  have key : ∀ e : Nat, e < 10 → (Char.ofNat (48 + e)).toNat = 48 + e := by decide
  unfold digitChar
  exact key _ h

theorem charDigit_digitChar (d : Nat) : charDigit (digitChar d) = d % 10 := by
  unfold charDigit
  rw [digitChar_toNat]
  omega

theorem listDecode_append_digit (l : List Char) (c : Char) :
    listDecode (l ++ [c]) = 10 * listDecode l + charDigit c := by
  simp [listDecode, List.foldl_append]

theorem listDecode_natCharsAux :
    ∀ fuel n, n < 10 ^ fuel → listDecode (natCharsAux fuel n) = n
  | 0, n, h => by
      have hn : n = 0 := by simpa using h
      simp [natCharsAux, listDecode, hn]
  | fuel + 1, n, h => by
      by_cases hn : n = 0
      · simp [natCharsAux, hn, listDecode]
      · have hdiv : n / 10 < 10 ^ fuel := by
          rw [Nat.div_lt_iff_lt_mul (by norm_num)]
          calc n < 10 ^ (fuel + 1) := h
          _ = 10 ^ fuel * 10 := by ring
        rw [natCharsAux, if_neg hn, listDecode_append_digit, charDigit_digitChar,
          listDecode_natCharsAux fuel _ hdiv]
        omega

theorem listDecode_natChars (n : Nat) : listDecode (natChars n) = n := by
  unfold natChars
  by_cases hn : n = 0
  · simp [hn, listDecode, charDigit_digitChar]
  · rw [if_neg hn]
    refine listDecode_natCharsAux _ _ ?_
    calc n < 10 ^ n := Nat.lt_pow_self (by norm_num) n
    _ ≤ 10 ^ (n + 1) := Nat.pow_le_pow_right (by norm_num) (Nat.le_succ n)

theorem natChars_injective {a b : Nat} (h : natChars a = natChars b) : a = b := by
  have h2 := congrArg listDecode h
  rwa [listDecode_natChars, listDecode_natChars] at h2

theorem escapeChar_plain {c : Char} (h1 : 32 ≤ c.toNat) (h2 : c.toNat ≤ 126)
    (h3 : c.toNat ≠ 34) (h4 : c.toNat ≠ 92) : escapeChar c = [c] := by
  simp only [escapeChar]
  split_ifs <;> first | rfl | omega

theorem escapeChars_append (a b : List Char) :
    escapeChars (a ++ b) = escapeChars a ++ escapeChars b := by
  induction a with
  | nil => rfl
  | cons c l ih => simp [escapeChars, ih, List.append_assoc]

theorem escapeChar_digitChar (d : Nat) : escapeChar (digitChar d) = [digitChar d] := by
  have h := digitChar_toNat d
  have h10 : d % 10 < 10 := Nat.mod_lt _ (by norm_num)
  exact escapeChar_plain (by omega) (by omega) (by omega) (by omega)

theorem escapeChars_natCharsAux (fuel : Nat) :
    ∀ n, escapeChars (natCharsAux fuel n) = natCharsAux fuel n := by
  induction fuel with
  | zero => intro n; rfl
  | succ fuel ih =>
      intro n
      by_cases hn : n = 0
      · simp [natCharsAux, hn, escapeChars]
      · rw [natCharsAux, if_neg hn, escapeChars_append, ih]
        simp [escapeChars, escapeChar_digitChar]

theorem escapeChars_natChars (n : Nat) : escapeChars (natChars n) = natChars n := by
  unfold natChars
  by_cases hn : n = 0
  · simp [hn, escapeChars, escapeChar_digitChar]
  · rw [if_neg hn, escapeChars_natCharsAux]

theorem escapeChars_intChars (n : Int) : escapeChars (intChars n) = intChars n := by
  cases n with
  | ofNat m => exact escapeChars_natChars m
  | negSucc m =>
      have h45 : escapeChar (Char.ofNat 45) = [Char.ofNat 45] := by
        refine escapeChar_plain ?_ ?_ ?_ ?_ <;> decide
      simp [intChars, escapeChars, h45, escapeChars_natChars]

theorem bitLenAux_zero : ∀ fuel, bitLenAux fuel 0 = 0
  | 0 => rfl
  | _ + 1 => rfl

theorem bitLenAux_spec : ∀ fuel n, n ≤ fuel → 1 ≤ n →
    2 ^ (bitLenAux fuel n - 1) ≤ n ∧ n < 2 ^ bitLenAux fuel n ∧ 1 ≤ bitLenAux fuel n
  | 0, _, hf, h1 => absurd h1 (by omega)
  | fuel + 1, n, hf, h1 => by
      rw [bitLenAux, if_neg (by omega)]
      by_cases h2 : n / 2 = 0
      · have hn : n = 1 := by omega
        subst hn
        norm_num [bitLenAux_zero]
      · obtain ⟨ha, hb, hc⟩ := bitLenAux_spec fuel (n / 2) (by omega) (by omega)
        obtain ⟨b, hbeq⟩ : ∃ b, bitLenAux fuel (n / 2) = b + 1 := ⟨bitLenAux fuel (n / 2) - 1, by omega⟩
        rw [hbeq] at ha hb
        rw [hbeq]
        simp only [Nat.add_sub_cancel] at ha ⊢
        have e1 : (2 : ℕ) ^ (b + 1) = 2 ^ b * 2 := pow_succ 2 b
        have e2 : (2 : ℕ) ^ (b + 1 + 1) = 2 ^ b * 2 * 2 := by rw [pow_succ, pow_succ]
        rw [e1, e2] at *
        refine ⟨?_, ?_, by omega⟩ <;> omega

theorem bitLen_spec (n : Nat) (h : 1 ≤ n) :
    2 ^ (bitLen n - 1) ≤ n ∧ n < 2 ^ bitLen n ∧ 1 ≤ bitLen n :=
  bitLenAux_spec (n + 1) n (by omega) h

theorem bitLen_le_of_lt {n k : Nat} (h1 : 1 ≤ n) (h : n < 2 ^ k) : bitLen n ≤ k := by
  obtain ⟨ha, _, hc⟩ := bitLen_spec n h1
  by_contra hk
  push_neg at hk
  have h2 : (2 : ℕ) ^ k ≤ 2 ^ (bitLen n - 1) := Nat.pow_le_pow_right (by norm_num) (by omega)
  omega

theorem le_bitLen {n k : Nat} (h1 : 1 ≤ n) (h : 2 ^ k ≤ n) : k < bitLen n := by
  obtain ⟨_, hb, _⟩ := bitLen_spec n h1
  by_contra hk
  push_neg at hk
  have h2 : (2 : ℕ) ^ (bitLen n) ≤ 2 ^ k := Nat.pow_le_pow_right (by norm_num) hk
  omega

theorem rhe_spec (n d : ℤ) (hd : 0 < d) :
    n / d ≤ rhe n d ∧ 2 * (rhe n d * d) ≤ 2 * n + d := by
  have hmod : n % d + d * (n / d) = n := Int.emod_add_ediv n d
  have h0 : 0 ≤ n % d := Int.emod_nonneg n (by omega)
  have h1 : n % d < d := Int.emod_lt_of_pos n hd
  have hcomm : n / d * d = d * (n / d) := mul_comm _ _
  have hcomm2 : (n / d + 1) * d = d * (n / d) + d := by ring
  unfold rhe
  split_ifs with ha hb hc
  · exact ⟨le_refl _, by rw [hcomm]; linarith⟩
  · exact ⟨by omega, by rw [hcomm2]; linarith⟩
  · exact ⟨le_refl _, by rw [hcomm]; linarith⟩
  · exact ⟨by omega, by rw [hcomm2]; linarith⟩

theorem roundDyadic_exact {n e : ℤ} (hn : n ≠ 0)
    (h : max ((bitLen n.natAbs : ℤ) - 1 + e - 52) (-1074) ≤ e) :
    roundDyadic n e = (n, e) := by
  rw [roundDyadic, if_neg hn, if_pos h]

theorem roundDyadic_round {n e : ℤ} (hn : n ≠ 0)
    (h : ¬ max ((bitLen n.natAbs : ℤ) - 1 + e - 52) (-1074) ≤ e) :
    roundDyadic n e
      = (rhe n (2 ^ (max ((bitLen n.natAbs : ℤ) - 1 + e - 52) (-1074) - e).toNat),
        max ((bitLen n.natAbs : ℤ) - 1 + e - 52) (-1074)) := by
  rw [roundDyadic, if_neg hn, if_neg h]

theorem dblOverflow_false {m ex : ℤ} (hex : ex < 1024)
    (h : m.natAbs < 2 ^ (1024 - ex).toNat) : dblOverflow m ex = false := by
  rw [dblOverflow, if_neg (by omega)]
  simp only [decide_eq_false_iff_not, not_le]
  exact h

theorem dblOverflow_zero : dblOverflow (0 : ℤ) 0 = false := by
  refine dblOverflow_false (by norm_num) ?_
  have h : 0 < 2 ^ ((1024 : ℤ) - 0).toNat := pow_pos (by norm_num) _
  simpa using h

theorem roundDyadic_zero (e : ℤ) : roundDyadic 0 e = (0, 0) := by
  rw [roundDyadic, if_pos rfl]

theorem floatMul_finite {p q e1 e2 m ex : ℤ}
    (hrd : roundDyadic (p * q) (e1 + e2) = (m, ex))
    (hov : dblOverflow m ex = false) :
    floatMul (p, e1) (q, e2) = .finite m ex := by
  show (if dblOverflow (roundDyadic (p * q) (e1 + e2)).1 (roundDyadic (p * q) (e1 + e2)).2
      then PyFloat.inf (decide (p * q < 0))
      else PyFloat.finite (roundDyadic (p * q) (e1 + e2)).1 (roundDyadic (p * q) (e1 + e2)).2)
    = .finite m ex
  rw [hrd]
  simp [hov]

theorem floatOfInt_small {g : ℤ} (h0 : 0 ≤ g) (h1 : g ≤ 2 ^ 52) :
    floatOfInt g = .ok (g, 0) := by
  by_cases hg : g = 0
  · subst hg
    simp [floatOfInt, roundDyadic_zero, dblOverflow_zero]
  · have hpos : 1 ≤ g.natAbs := Int.natAbs_pos.mpr hg
    have hna : (g.natAbs : ℤ) = g := Int.natAbs_of_nonneg h0
    have hlt : g.natAbs < 2 ^ 53 := by
      have h2 : (g.natAbs : ℤ) < (2 : ℤ) ^ 53 := by
        rw [hna]; exact lt_of_le_of_lt h1 (by norm_num)
      exact_mod_cast h2
    have hble : bitLen g.natAbs ≤ 53 := bitLen_le_of_lt hpos hlt
    have hbleZ : (bitLen g.natAbs : ℤ) ≤ 53 := by exact_mod_cast hble
    have hrd : roundDyadic g 0 = (g, 0) :=
      roundDyadic_exact hg (by rw [max_le_iff]; omega)
    have hov : dblOverflow g 0 = false := by
      refine dblOverflow_false (by norm_num) ?_
      have e : ((1024 : ℤ) - 0).toNat = 1024 := by omega
      rw [e]
      exact lt_of_lt_of_le hlt (Nat.pow_le_pow_right (by norm_num) (by norm_num))
    simp [floatOfInt, hrd, hov]

/-- Any integer of 2¹⁰²⁴ or more overflows the conversion to double. -/
theorem floatOfInt_overflow {g : ℤ} (h : 2 ^ 1024 ≤ g) :
    floatOfInt g = .error (.overflowError "int too large to convert to float") := by
  have hpos : (0 : ℤ) < g := lt_of_lt_of_le (by positivity) h
  have hne : g ≠ 0 := ne_of_gt hpos
  have hna : (g.natAbs : ℤ) = g := Int.natAbs_of_nonneg (le_of_lt hpos)
  have habs1 : 1 ≤ g.natAbs := Int.natAbs_pos.mpr hne
  obtain ⟨hBa, hBb, hBc⟩ := bitLen_spec g.natAbs habs1
  have hB1025 : 1025 ≤ bitLen g.natAbs := by
    refine le_bitLen habs1 ?_
    have h2 : (2 : ℤ) ^ 1024 ≤ (g.natAbs : ℤ) := by rw [hna]; exact h
    exact_mod_cast h2
  have hB1025Z : (1025 : ℤ) ≤ (bitLen g.natAbs : ℤ) := by exact_mod_cast hB1025
  have hmax : max ((bitLen g.natAbs : ℤ) - 1 + 0 - 52) (-1074)
      = (bitLen g.natAbs : ℤ) - 53 := by
    rw [max_eq_left (by omega)]
    ring
  have hsnat : ((bitLen g.natAbs : ℤ) - 53 - 0).toNat = bitLen g.natAbs - 53 := by omega
  have hrd : roundDyadic g 0
      = (rhe g (2 ^ (bitLen g.natAbs - 53)), (bitLen g.natAbs : ℤ) - 53) := by
    rw [roundDyadic_round hne (by rw [hmax]; omega)]
    rw [hmax, hsnat]
  have hdpos : (0 : ℤ) < 2 ^ (bitLen g.natAbs - 53) := by positivity
  obtain ⟨hq, _⟩ := rhe_spec g (2 ^ (bitLen g.natAbs - 53)) hdpos
  have hm52 : (2 : ℤ) ^ 52 ≤ rhe g (2 ^ (bitLen g.natAbs - 53)) := by
    refine le_trans ?_ hq
    rw [Int.le_ediv_iff_mul_le hdpos, ← pow_add]
    have he : 52 + (bitLen g.natAbs - 53) = bitLen g.natAbs - 1 := by omega
    rw [he]
    have h2 : (((2 : ℕ) ^ (bitLen g.natAbs - 1) : ℕ) : ℤ) ≤ (g.natAbs : ℤ) := by
      exact_mod_cast hBa
    rw [hna] at h2
    calc (2 : ℤ) ^ (bitLen g.natAbs - 1)
        = (((2 : ℕ) ^ (bitLen g.natAbs - 1) : ℕ) : ℤ) := by norm_cast
    _ ≤ g := h2
  have hm0 : 0 ≤ rhe g (2 ^ (bitLen g.natAbs - 53)) :=
    le_trans (by positivity) hm52
  have hov : dblOverflow (rhe g (2 ^ (bitLen g.natAbs - 53)))
      ((bitLen g.natAbs : ℤ) - 53) = true := by
    rw [dblOverflow]
    by_cases hex : (1024 : ℤ) ≤ (bitLen g.natAbs : ℤ) - 53
    · rw [if_pos hex]
      simp only [decide_eq_true_eq]
      exact ne_of_gt (lt_of_lt_of_le (by positivity) hm52)
    · rw [if_neg hex]
      simp only [decide_eq_true_eq]
      push_neg at hex
      have he2 : ((1024 : ℤ) - ((bitLen g.natAbs : ℤ) - 53)).toNat
          = 1077 - bitLen g.natAbs := by omega
      rw [he2]
      have hle : (2 : ℕ) ^ (1077 - bitLen g.natAbs) ≤ 2 ^ 52 :=
        Nat.pow_le_pow_right (by norm_num) (by omega)
      have hmabs : (((rhe g (2 ^ (bitLen g.natAbs - 53))).natAbs : ℕ) : ℤ)
          = rhe g (2 ^ (bitLen g.natAbs - 53)) := Int.natAbs_of_nonneg hm0
      have h52 : (2 : ℕ) ^ 52 ≤ (rhe g (2 ^ (bitLen g.natAbs - 53))).natAbs := by
        have h3 : (((2 : ℕ) ^ 52 : ℕ) : ℤ)
            ≤ (((rhe g (2 ^ (bitLen g.natAbs - 53))).natAbs : ℕ) : ℤ) := by
          rw [hmabs]
          calc (((2 : ℕ) ^ 52 : ℕ) : ℤ) = (2 : ℤ) ^ 52 := by norm_cast
          _ ≤ rhe g (2 ^ (bitLen g.natAbs - 53)) := hm52
        exact_mod_cast h3
      exact le_trans hle h52
  unfold floatOfInt
  rw [hrd]
  simp [hov]

set_option maxHeartbeats 1600000 in
/-- Over the exact range of the double conversion (gas limits up to 2⁵²)
the whole double pipeline lands exactly on the floor of the true
product. -/
theorem gas_amount_floor {g : ℤ} (h0 : 0 ≤ g) (h1 : g ≤ 2 ^ 52) :
    gas_amount gasPriceDefault g = .ok (25 * g / 1000) := by
  have hfee : (25 : ℤ) * g / 1000 = g / 40 := by
    rw [show (1000 : ℤ) = 25 * 40 by norm_num,
      Int.mul_ediv_mul_of_pos _ _ (by norm_num : (0 : ℤ) < 25)]
  by_cases hg : g = 0
  · subst hg
    rw [show (25 : ℤ) * 0 / 1000 = 0 by norm_num]
    rw [gas_amount, floatOfInt_small le_rfl (by positivity), except_bind_ok]
    show pyIntOfFloat (floatMul (7205759403792794, -58) (0, 0)) = .ok 0
    have hrd : roundDyadic ((7205759403792794 : ℤ) * 0) (-58 + 0) = (0, 0) := by
      rw [show (7205759403792794 : ℤ) * 0 = 0 by ring, roundDyadic_zero]
    rw [floatMul_finite hrd dblOverflow_zero]
    simp [pyIntOfFloat]
  · rw [hfee]
    have hg1 : 1 ≤ g := by omega
    have hNpos : (0 : ℤ) < 7205759403792794 * g := by
      have := mul_pos (show (0:ℤ) < 7205759403792794 by norm_num) (show (0:ℤ) < g by omega)
      exact this
    have hNne : (7205759403792794 : ℤ) * g ≠ 0 := ne_of_gt hNpos
    have hNna : (((7205759403792794 : ℤ) * g).natAbs : ℤ) = 7205759403792794 * g :=
      Int.natAbs_of_nonneg (le_of_lt hNpos)
    have hNabs1 : 1 ≤ ((7205759403792794 : ℤ) * g).natAbs := Int.natAbs_pos.mpr hNne
    obtain ⟨hBa, hBb, hBc⟩ := bitLen_spec ((7205759403792794 : ℤ) * g).natAbs hNabs1
    have hNltZ : (7205759403792794 : ℤ) * g < 2 ^ 105 := by
      have h2 : (7205759403792794 : ℤ) * g ≤ 7205759403792794 * 2 ^ 52 :=
        mul_le_mul_of_nonneg_left h1 (by norm_num)
      calc (7205759403792794 : ℤ) * g ≤ 7205759403792794 * 2 ^ 52 := h2
      _ < 2 ^ 105 := by norm_num
    have hBle : bitLen ((7205759403792794 : ℤ) * g).natAbs ≤ 105 := by
      refine bitLen_le_of_lt hNabs1 ?_
      have h2 : ((((7205759403792794 : ℤ) * g).natAbs : ℤ)) < (2 : ℤ) ^ 105 := by
        rw [hNna]; exact hNltZ
      exact_mod_cast h2
    have hBge : 53 ≤ bitLen ((7205759403792794 : ℤ) * g).natAbs := by
      have h52 : (2 : ℕ) ^ 52 ≤ ((7205759403792794 : ℤ) * g).natAbs := by
        have h2 : (2 : ℤ) ^ 52 ≤ ((((7205759403792794 : ℤ) * g).natAbs : ℤ)) := by
          rw [hNna]
          calc (2 : ℤ) ^ 52 ≤ 7205759403792794 * 1 := by norm_num
          _ ≤ 7205759403792794 * g := mul_le_mul_of_nonneg_left hg1 (by norm_num)
        exact_mod_cast h2
      have := le_bitLen hNabs1 h52
      omega
    have hBZge : (53 : ℤ) ≤ (bitLen ((7205759403792794 : ℤ) * g).natAbs : ℤ) := by
      exact_mod_cast hBge
    have hBZle : ((bitLen ((7205759403792794 : ℤ) * g).natAbs : ℤ)) ≤ 105 := by
      exact_mod_cast hBle
    -- decomposition g = 40x + t
    have hgdec : 40 * (g / 40) + g % 40 = g := by
      have := Int.ediv_add_emod g 40
      omega
    have hx0 : 0 ≤ g / 40 := Int.ediv_nonneg h0 (by norm_num)
    have hxle : g / 40 ≤ 112589990684262 := by
      calc g / 40 ≤ 2 ^ 52 / 40 := Int.ediv_le_ediv (by norm_num) h1
      _ = 112589990684262 := by norm_num
    have ht0 : 0 ≤ g % 40 := Int.emod_nonneg g (by norm_num)
    have ht1 : g % 40 < 40 := Int.emod_lt_of_pos g (by norm_num)
    have hPt0 : 0 ≤ (7205759403792794 : ℤ) * (g % 40) :=
      mul_nonneg (by norm_num) ht0
    have hPt1 : (7205759403792794 : ℤ) * (g % 40) ≤ 7205759403792794 * 39 :=
      mul_le_mul_of_nonneg_left (by omega) (by norm_num)
    have hNdec : (7205759403792794 : ℤ) * g
        = g / 40 * 2 ^ 58 + (16 * (g / 40) + 7205759403792794 * (g % 40)) := by
      calc (7205759403792794 : ℤ) * g
          = 7205759403792794 * (40 * (g / 40) + g % 40) := by rw [hgdec]
      _ = (7205759403792794 * 40) * (g / 40) + 7205759403792794 * (g % 40) := by ring
      _ = ((2:ℤ) ^ 58 + 16) * (g / 40) + 7205759403792794 * (g % 40) := by norm_num
      _ = g / 40 * 2 ^ 58 + (16 * (g / 40) + 7205759403792794 * (g % 40)) := by ring
    rw [gas_amount, floatOfInt_small h0 h1, except_bind_ok]
    show pyIntOfFloat (floatMul (7205759403792794, -58) (g, 0)) = .ok (g / 40)
    by_cases hB53 : ((bitLen ((7205759403792794 : ℤ) * g).natAbs : ℤ)) ≤ 53
    · -- no rounding: the product mantissa already fits in 53 bits
      have hNlt53 : (7205759403792794 : ℤ) * g < 2 ^ 53 := by
        have h2 : ((7205759403792794 : ℤ) * g).natAbs < 2 ^ 53 := by
          have hp : (2:ℕ) ^ bitLen ((7205759403792794 : ℤ) * g).natAbs ≤ 2 ^ 53 :=
            Nat.pow_le_pow_right (by norm_num) (by exact_mod_cast hB53)
          omega
        calc (7205759403792794 : ℤ) * g = (((7205759403792794 : ℤ) * g).natAbs : ℤ) := hNna.symm
        _ < ((2 ^ 53 : ℕ) : ℤ) := by exact_mod_cast h2
        _ = 2 ^ 53 := by norm_num
      have hglt40 : g < 40 := by
        by_contra hge
        push_neg at hge
        have h2 : (7205759403792794 : ℤ) * 40 ≤ 7205759403792794 * g :=
          mul_le_mul_of_nonneg_left hge (by norm_num)
        have h3 : (7205759403792794 : ℤ) * 40 = 2 ^ 58 + 16 := by norm_num
        have h4 : (2:ℤ) ^ 53 < 2 ^ 58 + 16 := by norm_num
        omega
      have hx : g / 40 = 0 := Int.ediv_eq_zero_of_lt h0 hglt40
      have hrd : roundDyadic ((7205759403792794 : ℤ) * g) (-58 + 0)
          = (7205759403792794 * g, -58 + 0) := by
        refine roundDyadic_exact hNne ?_
        rw [max_le_iff]
        omega
      have hov : dblOverflow ((7205759403792794 : ℤ) * g) (-58 + 0) = false := by
        refine dblOverflow_false (by norm_num) ?_
        have e : ((1024 : ℤ) - (-58 + 0)).toNat = 1082 := by omega
        rw [e]
        have h2 : ((7205759403792794 : ℤ) * g).natAbs < 2 ^ 53 := by omega
        exact lt_of_lt_of_le h2 (Nat.pow_le_pow_right (by norm_num) (by norm_num))
      rw [floatMul_finite hrd hov, pyIntOfFloat]
      rw [if_neg (by norm_num)]
      have e2 : ((-(-58 + 0) : ℤ)).toNat = 58 := by omega
      rw [e2, Int.tdiv_eq_ediv (le_of_lt hNpos) (by positivity)]
      rw [Int.ediv_eq_zero_of_lt (le_of_lt hNpos) (by norm_num at hNlt53 ⊢; omega), hx]
    · -- rounding: 54 ≤ B ≤ 105
      push_neg at hB53
      have hB54 : (54 : ℤ) ≤ (bitLen ((7205759403792794 : ℤ) * g).natAbs : ℤ) := by omega
      -- abbreviate
      have hmax : max ((bitLen ((7205759403792794 : ℤ) * g).natAbs : ℤ) - 1 + (-58 + 0) - 52) (-1074)
          = (bitLen ((7205759403792794 : ℤ) * g).natAbs : ℤ) - 111 := by
        rw [max_eq_left (by omega)]
        ring
      have hsnat : ((bitLen ((7205759403792794 : ℤ) * g).natAbs : ℤ) - 111 - (-58 + 0)).toNat
          = bitLen ((7205759403792794 : ℤ) * g).natAbs - 53 := by
        omega
      have hs1 : 1 ≤ bitLen ((7205759403792794 : ℤ) * g).natAbs - 53 := by omega
      have hs52 : bitLen ((7205759403792794 : ℤ) * g).natAbs - 53 ≤ 52 := by omega
      have hdpos : (0 : ℤ) < 2 ^ (bitLen ((7205759403792794 : ℤ) * g).natAbs - 53) := by positivity
      obtain ⟨hq, hup⟩ := rhe_spec ((7205759403792794 : ℤ) * g)
        (2 ^ (bitLen ((7205759403792794 : ℤ) * g).natAbs - 53)) hdpos
      have hq0 : 0 ≤ (7205759403792794 : ℤ) * g / 2 ^ (bitLen ((7205759403792794 : ℤ) * g).natAbs - 53) :=
        Int.ediv_nonneg (le_of_lt hNpos) (le_of_lt hdpos)
      have hr0 : 0 ≤ rhe ((7205759403792794 : ℤ) * g) (2 ^ (bitLen ((7205759403792794 : ℤ) * g).natAbs - 53)) :=
        le_trans hq0 hq
      -- upper bound on r, for the overflow check
      have hrbound : rhe ((7205759403792794 : ℤ) * g) (2 ^ (bitLen ((7205759403792794 : ℤ) * g).natAbs - 53))
          < 2 ^ 106 := by
        have h2s1 : (1 : ℤ) ≤ 2 ^ (bitLen ((7205759403792794 : ℤ) * g).natAbs - 53) := hdpos
        have hle : rhe ((7205759403792794 : ℤ) * g) (2 ^ (bitLen ((7205759403792794 : ℤ) * g).natAbs - 53))
            ≤ rhe ((7205759403792794 : ℤ) * g) (2 ^ (bitLen ((7205759403792794 : ℤ) * g).natAbs - 53))
              * 2 ^ (bitLen ((7205759403792794 : ℤ) * g).natAbs - 53) :=
          le_mul_of_one_le_right hr0 h2s1
        have h2s52 : (2:ℤ) ^ (bitLen ((7205759403792794 : ℤ) * g).natAbs - 53) ≤ 2 ^ 52 :=
          pow_le_pow_right (by norm_num) hs52
        linarith [hle, hup, h2s52, hNltZ]
      have hrd : roundDyadic ((7205759403792794 : ℤ) * g) (-58 + 0)
          = (rhe ((7205759403792794 : ℤ) * g) (2 ^ (bitLen ((7205759403792794 : ℤ) * g).natAbs - 53)),
            (bitLen ((7205759403792794 : ℤ) * g).natAbs : ℤ) - 111) := by
        rw [roundDyadic_round hNne (by rw [hmax]; omega)]
        rw [hmax, hsnat]
      have hov : dblOverflow
          (rhe ((7205759403792794 : ℤ) * g) (2 ^ (bitLen ((7205759403792794 : ℤ) * g).natAbs - 53)))
          ((bitLen ((7205759403792794 : ℤ) * g).natAbs : ℤ) - 111) = false := by
        refine dblOverflow_false (by omega) ?_
        have e : ((1024 : ℤ) - ((bitLen ((7205759403792794 : ℤ) * g).natAbs : ℤ) - 111)).toNat
            = 1135 - bitLen ((7205759403792794 : ℤ) * g).natAbs := by omega
        rw [e]
        have h2 : (rhe ((7205759403792794 : ℤ) * g) (2 ^ (bitLen ((7205759403792794 : ℤ) * g).natAbs - 53))).natAbs
            < 2 ^ 106 := by omega
        refine lt_of_lt_of_le h2 (Nat.pow_le_pow_right (by norm_num) (by omega))
      rw [floatMul_finite hrd hov, pyIntOfFloat]
      rw [if_neg (by omega)]
      have e2 : (-(((bitLen ((7205759403792794 : ℤ) * g).natAbs : ℤ)) - 111)).toNat
          = 111 - bitLen ((7205759403792794 : ℤ) * g).natAbs := by omega
      rw [e2, Int.tdiv_eq_ediv hr0 (by positivity)]
      -- now pure integer reasoning: x · 2^u ≤ r < (x+1) · 2^u with u + s = 58
      have hus : (2:ℤ) ^ (111 - bitLen ((7205759403792794 : ℤ) * g).natAbs)
          * 2 ^ (bitLen ((7205759403792794 : ℤ) * g).natAbs - 53) = 2 ^ 58 := by
        rw [← pow_add]
        congr 1
        omega
      have hupos : (0:ℤ) < 2 ^ (111 - bitLen ((7205759403792794 : ℤ) * g).natAbs) := by positivity
      have hlow : g / 40 * 2 ^ (111 - bitLen ((7205759403792794 : ℤ) * g).natAbs)
          ≤ rhe ((7205759403792794 : ℤ) * g) (2 ^ (bitLen ((7205759403792794 : ℤ) * g).natAbs - 53)) := by
        refine le_trans ?_ hq
        rw [Int.le_ediv_iff_mul_le hdpos]
        calc g / 40 * 2 ^ (111 - bitLen ((7205759403792794 : ℤ) * g).natAbs)
            * 2 ^ (bitLen ((7205759403792794 : ℤ) * g).natAbs - 53)
            = g / 40 * ((2:ℤ) ^ (111 - bitLen ((7205759403792794 : ℤ) * g).natAbs)
              * 2 ^ (bitLen ((7205759403792794 : ℤ) * g).natAbs - 53)) := by ring
        _ = g / 40 * 2 ^ 58 := by rw [hus]
        _ ≤ 7205759403792794 * g := by linarith [hNdec, hPt0, hx0]
      have hupper : rhe ((7205759403792794 : ℤ) * g) (2 ^ (bitLen ((7205759403792794 : ℤ) * g).natAbs - 53))
          < (g / 40 + 1) * 2 ^ (111 - bitLen ((7205759403792794 : ℤ) * g).natAbs) := by
        have h2s52 : (2:ℤ) ^ (bitLen ((7205759403792794 : ℤ) * g).natAbs - 53) ≤ 2 ^ 52 :=
          pow_le_pow_right (by norm_num) hs52
        have hkey : 2 * ((7205759403792794 : ℤ) * g)
            + 2 ^ (bitLen ((7205759403792794 : ℤ) * g).natAbs - 53)
            < 2 * ((g / 40 + 1) * 2 ^ 58) := by
          have hx16 : (16:ℤ) * (g / 40) ≤ 16 * 112589990684262 :=
            mul_le_mul_of_nonneg_left hxle (by norm_num)
          linarith [hNdec, hx16, hPt1, h2s52]
        have hmul : rhe ((7205759403792794 : ℤ) * g) (2 ^ (bitLen ((7205759403792794 : ℤ) * g).natAbs - 53))
            * (2 * 2 ^ (bitLen ((7205759403792794 : ℤ) * g).natAbs - 53))
            < (g / 40 + 1) * 2 ^ (111 - bitLen ((7205759403792794 : ℤ) * g).natAbs)
              * (2 * 2 ^ (bitLen ((7205759403792794 : ℤ) * g).natAbs - 53)) := by
          have hr2 : (g / 40 + 1) * 2 ^ (111 - bitLen ((7205759403792794 : ℤ) * g).natAbs)
              * (2 * 2 ^ (bitLen ((7205759403792794 : ℤ) * g).natAbs - 53))
              = 2 * ((g / 40 + 1) * 2 ^ 58) := by
            calc (g / 40 + 1) * 2 ^ (111 - bitLen ((7205759403792794 : ℤ) * g).natAbs)
                * (2 * 2 ^ (bitLen ((7205759403792794 : ℤ) * g).natAbs - 53))
                = 2 * ((g / 40 + 1) * ((2:ℤ) ^ (111 - bitLen ((7205759403792794 : ℤ) * g).natAbs)
                  * 2 ^ (bitLen ((7205759403792794 : ℤ) * g).natAbs - 53))) := by ring
            _ = 2 * ((g / 40 + 1) * 2 ^ 58) := by rw [hus]
          rw [hr2]
          calc rhe ((7205759403792794 : ℤ) * g) (2 ^ (bitLen ((7205759403792794 : ℤ) * g).natAbs - 53))
              * (2 * 2 ^ (bitLen ((7205759403792794 : ℤ) * g).natAbs - 53))
              = 2 * (rhe ((7205759403792794 : ℤ) * g) (2 ^ (bitLen ((7205759403792794 : ℤ) * g).natAbs - 53))
                * 2 ^ (bitLen ((7205759403792794 : ℤ) * g).natAbs - 53)) := by ring
          _ ≤ 2 * ((7205759403792794 : ℤ) * g)
              + 2 ^ (bitLen ((7205759403792794 : ℤ) * g).natAbs - 53) := by linarith [hup]
          _ < 2 * ((g / 40 + 1) * 2 ^ 58) := hkey
        exact lt_of_mul_lt_mul_right hmul (by positivity)
      have hfinal : rhe ((7205759403792794 : ℤ) * g) (2 ^ (bitLen ((7205759403792794 : ℤ) * g).natAbs - 53))
          / 2 ^ (111 - bitLen ((7205759403792794 : ℤ) * g).natAbs) = g / 40 := by
        have hdec2 : rhe ((7205759403792794 : ℤ) * g) (2 ^ (bitLen ((7205759403792794 : ℤ) * g).natAbs - 53))
            = (rhe ((7205759403792794 : ℤ) * g) (2 ^ (bitLen ((7205759403792794 : ℤ) * g).natAbs - 53))
              - g / 40 * 2 ^ (111 - bitLen ((7205759403792794 : ℤ) * g).natAbs))
              + g / 40 * 2 ^ (111 - bitLen ((7205759403792794 : ℤ) * g).natAbs) := by ring
        rw [hdec2, Int.add_mul_ediv_right _ _ (ne_of_gt hupos),
          Int.ediv_eq_zero_of_lt (by linarith) (by linarith)]
        ring
      rw [hfinal]

theorem hasBytes_sign_doc (bb ab : List Nat) (info : TransactionInfo) :
    (sign_doc bb ab info).hasBytes = true := rfl

theorem sign_bytes_error (tx : PyVal) (info : TransactionInfo) :
    ∃ e, sign_bytes tx info = .error e := by
  unfold sign_bytes
  cases hb : getItem tx "body" with
  | error e => exact ⟨e, by simp [hb, except_bind_ok, except_bind_error]⟩
  | ok body =>
      cases ha : getItem tx "auth_info" with
      | error e => exact ⟨e, by simp [hb, ha, except_bind_ok, except_bind_error]⟩
      | ok auth =>
          cases heb : encode_body body with
          | error e => exact ⟨e, by simp [hb, ha, heb, except_bind_ok, except_bind_error]⟩
          | ok bb =>
              cases hea : encode_auth_info auth with
              | error e => exact ⟨e, by simp [hb, ha, heb, hea, except_bind_ok, except_bind_error]⟩
              | ok ab =>
                  refine ⟨.typeError typeErrorBytes, ?_⟩
                  simp [hb, ha, heb, hea, except_bind_ok, except_bind_error, dumps,
                    hasBytes_sign_doc, Except.map]

theorem lexLt_asymm : ∀ l m : List Char, lexLt l m = true → lexLt m l = false
  | [], [], h => by simp [lexLt] at h
  | [], _ :: _, _ => by simp [lexLt]
  | _ :: _, [], h => by simp [lexLt] at h
  | a :: l, b :: m, h => by
      simp only [lexLt] at h ⊢
      by_cases h1 : a.toNat < b.toNat
      · rw [if_neg (by omega), if_pos h1]
      · by_cases h2 : b.toNat < a.toNat
        · rw [if_neg h1, if_pos h2] at h
          exact absurd h (by simp)
        · rw [if_neg h1, if_neg h2] at h
          rw [if_neg h2, if_neg h1]
          exact lexLt_asymm l m h

theorem lexLt_connected :
    ∀ l m k : List Char, lexLt l m = true → lexLt l k = true ∨ lexLt k m = true
  | [], [], _, h => by simp [lexLt] at h
  | [], _ :: _, [], h => Or.inr h
  | [], _ :: _, _ :: _, _ => Or.inl (by simp [lexLt])
  | _ :: _, [], _, h => by simp [lexLt] at h
  | _ :: _, b :: m, [], _ => Or.inr (by simp [lexLt])
  | a :: l, b :: m, c :: k, h => by
      simp only [lexLt] at h ⊢
      by_cases hab : a.toNat < b.toNat
      · by_cases hac : a.toNat < c.toNat
        · exact Or.inl (by rw [if_pos hac])
        · exact Or.inr (by rw [if_pos (by omega)])
      · by_cases hba : b.toNat < a.toNat
        · rw [if_neg hab, if_pos hba] at h
          exact absurd h (by simp)
        · rw [if_neg hab, if_neg hba] at h
          by_cases hac : a.toNat < c.toNat
          · exact Or.inl (by rw [if_pos hac])
          · by_cases hca : c.toNat < a.toNat
            · exact Or.inr (by rw [if_pos (by omega)])
            · rcases lexLt_connected l m k h with h2 | h2
              · refine Or.inl ?_
                rw [if_neg hac, if_neg hca]
                exact h2
              · refine Or.inr ?_
                rw [if_neg (by omega), if_neg (by omega)]
                exact h2

theorem keyLe_total (s t : String) : keyLe s t = true ∨ keyLe t s = true := by
  unfold keyLe
  cases h : lexLt t.data s.data
  · exact Or.inl (by simp)
  · exact Or.inr (by simp [lexLt_asymm _ _ h])

theorem keyLe_trans {s t u : String} (h1 : keyLe s t = true) (h2 : keyLe t u = true) :
    keyLe s u = true := by
  unfold keyLe at h1 h2 ⊢
  simp only [Bool.not_eq_true'] at h1 h2 ⊢
  by_contra hc
  rw [Bool.not_eq_false] at hc
  rcases lexLt_connected u.data s.data t.data hc with h3 | h3
  · rw [h2] at h3
    exact absurd h3 (by simp)
  · rw [h1] at h3
    exact absurd h3 (by simp)

theorem keyRel_total {α : Type} (p q : String × α) : keyRel p q ∨ keyRel q p :=
  keyLe_total p.1 q.1

theorem keyRel_trans {α : Type} (p q r : String × α)
    (h1 : keyRel p q) (h2 : keyRel q r) : keyRel p r :=
  keyLe_trans h1 h2

theorem sortPairs_sorted {α : Type} (ps : List (String × α)) :
    List.Sorted keyRel (sortPairs ps) := by
  haveI : IsTotal (String × α) keyRel := ⟨keyRel_total⟩
  haveI : IsTrans (String × α) keyRel := ⟨keyRel_trans⟩
  exact List.sorted_insertionSort keyRel ps

theorem sortPairs_idem {α : Type} (ps : List (String × α)) :
    sortPairs (sortPairs ps) = sortPairs ps :=
  List.Sorted.insertionSort_eq (sortPairs_sorted ps)

theorem sortPairs_map {α β : Type} (f : α → β) (ps : List (String × α)) :
    sortPairs (ps.map (Prod.map id f)) = (sortPairs ps).map (Prod.map id f) :=
  (List.map_insertionSort keyRel keyRel (Prod.map id f) ps
    (fun _ _ _ _ => Iff.rfl)).symm

theorem any_perm {α : Type} {l m : List α} (h : l.Perm m) (f : α → Bool) :
    l.any f = m.any f := by
  rw [Bool.eq_iff_iff]
  simp only [List.any_eq_true]
  constructor
  · rintro ⟨x, hx, hfx⟩
    exact ⟨x, h.mem_iff.mp hx, hfx⟩
  · rintro ⟨x, hx, hfx⟩
    exact ⟨x, h.mem_iff.mpr hx, hfx⟩

theorem any_sortPairs {α : Type} (f : String × α → Bool) (ps : List (String × α)) :
    (sortPairs ps).any f = ps.any f :=
  any_perm (List.perm_insertionSort keyRel ps) f

theorem renderEntries_ofList (sk : Bool) (sI sKV : List Char) :
    ∀ ps : List (String × PyVal),
    renderEntries sk sI sKV (PyDict.ofList ps) = ps.map (Prod.map id (renderVal sk sI sKV))
  | [] => rfl
  | (k, v) :: ps => by
      simp [PyDict.ofList, renderEntries, renderEntries_ofList sk sI sKV ps, Prod.map]

theorem hasBytes_ofList :
    ∀ ps : List (String × PyVal),
    PyDict.hasBytes (PyDict.ofList ps) = ps.any fun p => PyVal.hasBytes p.2
  | [] => rfl
  | (k, v) :: ps => by
      simp [PyDict.ofList, PyDict.hasBytes, hasBytes_ofList ps]

mutual
theorem renderVal_normalize (sI sKV : List Char) : ∀ v : PyVal,
    renderVal true sI sKV (PyVal.normalize v) = renderVal true sI sKV v
  | .str _ => rfl
  | .int _ => rfl
  | .bool _ => rfl
  | .pyNone => rfl
  | .bytes _ => rfl
  | .list l => by
      simp only [PyVal.normalize, renderVal]
      rw [renderList_normalize sI sKV l]
  | .dict d => by
      simp only [PyVal.normalize, renderVal, if_pos]
      rw [renderEntries_ofList, sortPairs_map, sortPairs_idem, ← sortPairs_map,
        renderEntries_normEntries sI sKV d]
theorem renderList_normalize (sI sKV : List Char) : ∀ l : PyList,
    renderList true sI sKV (PyList.normalize l) = renderList true sI sKV l
  | .nil => rfl
  | .cons v tl => by
      simp only [PyList.normalize, renderList]
      rw [renderVal_normalize sI sKV v, renderList_normalize sI sKV tl]
theorem renderEntries_normEntries (sI sKV : List Char) : ∀ d : PyDict,
    (PyDict.normEntries d).map (Prod.map id (renderVal true sI sKV))
      = renderEntries true sI sKV d
  | .nil => rfl
  | .cons k v tl => by
      simp only [PyDict.normEntries, renderEntries, List.map_cons, Prod.map]
      rw [renderVal_normalize sI sKV v, renderEntries_normEntries sI sKV tl]
      simp
end

mutual
theorem hasBytes_normalize : ∀ v : PyVal,
    PyVal.hasBytes (PyVal.normalize v) = PyVal.hasBytes v
  | .str _ => rfl
  | .int _ => rfl
  | .bool _ => rfl
  | .pyNone => rfl
  | .bytes _ => rfl
  | .list l => by
      simp only [PyVal.normalize, PyVal.hasBytes]
      rw [hasBytesL_normalize l]
  | .dict d => by
      simp only [PyVal.normalize, PyVal.hasBytes]
      rw [hasBytes_ofList, any_sortPairs, anyEntries_normEntries d]
theorem hasBytesL_normalize : ∀ l : PyList,
    PyList.hasBytes (PyList.normalize l) = PyList.hasBytes l
  | .nil => rfl
  | .cons v tl => by
      simp only [PyList.normalize, PyList.hasBytes]
      rw [hasBytes_normalize v, hasBytesL_normalize tl]
theorem anyEntries_normEntries : ∀ d : PyDict,
    ((PyDict.normEntries d).any fun p => PyVal.hasBytes p.2) = PyDict.hasBytes d
  | .nil => rfl
  | .cons k v tl => by
      simp only [PyDict.normEntries, PyDict.hasBytes, List.any_cons]
      rw [hasBytes_normalize v, anyEntries_normEntries tl]
end

theorem natStr_data (n : Nat) : (natStr n).data = natChars n := rfl

theorem intStr_data (n : Int) : (intStr n).data = intChars n := rfl

theorem b64str_data (l : List Nat) : (b64str l).data = b64encode l := rfl

theorem textBytes_injective {l m : List Char} (h : textBytes l = textBytes m) : l = m := by
  unfold textBytes at h
  refine List.map_injective_iff.mpr ?_ h
  intro a b hab
  have h2 := congrArg Char.ofNat hab
  rwa [Char.ofNat_toNat, Char.ofNat_toNat] at h2

/-- The rendered auth_info determines the sequence digits: equal renders
(same gas price, wallet and gas limit) force equal sequence strings. -/
theorem auth_render_inj (w : Wallet) (amt g : ℤ) {s1 s2 : Nat}
    (h : renderVal true sepItemD sepKVD (auth_info_val amt w g s1)
       = renderVal true sepItemD sepKVD (auth_info_val amt w g s2)) :
    natChars s1 = natChars s2 := by
  have h1 : quoteChars (String.data "signer_infos") = Char.ofNat 34 :: ("signer_infos".data ++ [Char.ofNat 34]) := rfl
  have h2 : quoteChars (String.data "fee") = Char.ofNat 34 :: ("fee".data ++ [Char.ofNat 34]) := rfl
  have h3 : quoteChars (String.data "public_key") = Char.ofNat 34 :: ("public_key".data ++ [Char.ofNat 34]) := rfl
  have h4 : quoteChars (String.data "@type") = Char.ofNat 34 :: ("@type".data ++ [Char.ofNat 34]) := rfl
  have h5 : quoteChars (String.data "/cosmos.crypto.secp256k1.PubKey") = Char.ofNat 34 :: ("/cosmos.crypto.secp256k1.PubKey".data ++ [Char.ofNat 34]) := rfl
  have h6 : quoteChars (String.data "key") = Char.ofNat 34 :: ("key".data ++ [Char.ofNat 34]) := rfl
  have h7 : quoteChars (String.data "mode_info") = Char.ofNat 34 :: ("mode_info".data ++ [Char.ofNat 34]) := rfl
  have h8 : quoteChars (String.data "single") = Char.ofNat 34 :: ("single".data ++ [Char.ofNat 34]) := rfl
  have h9 : quoteChars (String.data "mode") = Char.ofNat 34 :: ("mode".data ++ [Char.ofNat 34]) := rfl
  have h10 : quoteChars (String.data "SIGN_MODE_DIRECT") = Char.ofNat 34 :: ("SIGN_MODE_DIRECT".data ++ [Char.ofNat 34]) := rfl
  have h11 : quoteChars (String.data "sequence") = Char.ofNat 34 :: ("sequence".data ++ [Char.ofNat 34]) := rfl
  have h12 : quoteChars (String.data "amount") = Char.ofNat 34 :: ("amount".data ++ [Char.ofNat 34]) := rfl
  have h13 : quoteChars (String.data "denom") = Char.ofNat 34 :: ("denom".data ++ [Char.ofNat 34]) := rfl
  have h14 : quoteChars (String.data "uakt") = Char.ofNat 34 :: ("uakt".data ++ [Char.ofNat 34]) := rfl
  have h15 : quoteChars (String.data "gas_limit") = Char.ofNat 34 :: ("gas_limit".data ++ [Char.ofNat 34]) := rfl
  have h16 : quoteChars (String.data "payer") = Char.ofNat 34 :: ("payer".data ++ [Char.ofNat 34]) := rfl
  have h17 : quoteChars (String.data "granter") = Char.ofNat 34 :: ("granter".data ++ [Char.ofNat 34]) := rfl
  have h18 : quoteChars (String.data "") = [Char.ofNat 34, Char.ofNat 34] := rfl
  simp only [auth_info_val, uakt, renderVal, renderEntries, renderList, PyList.ofList,
    PyDict.ofList, sortPairs, List.insertionSort, List.orderedInsert, joinSep,
    List.map_cons, List.map_nil, quoteChars, natStr_data, intStr_data, b64str_data,
    escapeChars_natChars, escapeChars_intChars,
    h1, h2, h3, h4, h5, h6, h7, h8, h9, h10, h11, h12, h13, h14, h15, h16, h17, h18,
    List.cons_append, List.nil_append, List.append_assoc, List.cons.injEq, true_and,
    List.append_cancel_left_eq, List.append_cancel_right_eq] at h
  simpa [List.append_cancel_right_eq] using h

/-- The auth_info assembled by create_transaction always encodes
successfully (it holds no bytes values). -/
theorem encode_auth_ok (amt : ℤ) (w : Wallet) (g : ℤ) (s : Nat) :
    encode_auth_info (auth_info_val amt w g s)
      = .ok (textBytes (renderVal true sepItemD sepKVD (auth_info_val amt w g s))) := by
  have hb : (auth_info_val amt w g s).hasBytes = false := rfl
  simp [encode_auth_info, dumps, hb, Except.map]

/-- Equivalent values dump identically under sort_keys=True, for every
separator pair. -/
theorem dumps_jsonEquiv (sI sKV : List Char) {a b : PyVal} (h : jsonEquiv a b) :
    dumps true sI sKV a = dumps true sI sKV b := by
  unfold jsonEquiv at h
  unfold dumps
  rw [← hasBytes_normalize a, ← hasBytes_normalize b,
    ← renderVal_normalize sI sKV a, ← renderVal_normalize sI sKV b, h]

/-! ## The claims -/

/-- C1: the claim says signing is deterministic — that two identical calls
to sign_transaction yield byte-identical signatures.  The code never
yields a signature at all: for every wallet, transaction, tx_info, and
for every behaviour of the hash function, of the ecdsa signing primitive
and of its entropy source, sign_transaction raises (json.dumps cannot
serialize the bytes values body_bytes / auth_info_bytes inside sign_doc,
so line 269 of transaction.py raises TypeError on every call, before the
nonce is even drawn). -/
theorem sign_transaction_never_succeeds
    (sha256 : List Nat → List Nat) (ecdsaSign : List Nat → List Nat → List Nat → List Nat)
    (entropy : List Nat) (w : Wallet) (tx : PyVal) (info : TransactionInfo) :
    isOkB (sign_transaction sha256 ecdsaSign entropy w tx info) = false := by
  obtain ⟨e, he⟩ := sign_bytes_error tx info
  unfold sign_transaction
  simp [he, except_bind_error, isOkB]

/-- C10: the claim says sign_transaction returns the transaction with a
one-element signatures list.  Evaluating the code at a concrete
transaction (for every hash / signing primitive / entropy): it raises
TypeError instead of returning. -/
theorem sign_transaction_type_error
    (sha256 : List Nat → List Nat) (ecdsaSign : List Nat → List Nat → List Nat → List Nat)
    (entropy : List Nat) :
    sign_transaction sha256 ecdsaSign entropy w0 tx10 info0
      = .error (.typeError typeErrorBytes) := rfl

set_option maxRecDepth 16384 in
/-- C2 fails as stated: at gas limit 100001 the embedded fee amount is
2500 (the truncated product), while the ceiling of 0.025 × 100001 is
2501. -/
theorem fee_ceiling_counterexample :
    gas_amount gasPriceDefault 100001 = .ok 2500 ∧
    ⌈(25 : ℚ) / 1000 * 100001⌉ = 2501 ∧ (2500 : ℤ) ≠ 2501 := by
  refine ⟨rfl, ?_, by decide⟩
  rw [Int.ceil_eq_iff]
  norm_num

set_option maxRecDepth 16384 in
/-- C2 amended: throughout the range where float(gas_limit) is exact
(0 ≤ gas_limit ≤ 2⁵²) the fee amount embedded by create_transaction
equals the floor (truncation, not ceiling) of the true product
0.025 × gas_limit, denominated in uakt; beyond that range the double
rounding can deviate from the true floor by one — at gas limit
18014398509481999 the code embeds 450359962737050 while the true floor is
450359962737049. -/
theorem fee_amount_truncated (w : Wallet) (msgs : List PyVal)
    (info : TransactionInfo) (g : ℤ) (hg : 0 ≤ g) (hg2 : g ≤ 2 ^ 52) :
    (∀ tx, create_transaction gasPriceDefault w msgs info g = .ok tx →
      pathGet tx ["auth_info", "fee", "amount"]
        = .ok (.list (.ofList [.dict (.ofList [
            ("denom", .str uakt),
            ("amount", .str (intStr ⌊((25 * g : ℤ) : ℚ) / ((1000 : ℕ) : ℚ)⌋))])]))) ∧
    gas_amount gasPriceDefault 18014398509481999 = .ok 450359962737050 ∧
    ⌊((25 * 18014398509481999 : ℤ) : ℚ) / ((1000 : ℕ) : ℚ)⌋ = 450359962737049 := by
  refine ⟨?_, rfl, ?_⟩
  · intro tx htx
    have hfl : ⌊((25 * g : ℤ) : ℚ) / ((1000 : ℕ) : ℚ)⌋ = 25 * g / 1000 :=
      Rat.floor_intCast_div_natCast (25 * g) 1000
    rw [create_transaction, gas_amount_floor hg hg2] at htx
    simp only [Except.map] at htx
    cases htx
    rw [hfl]
    simp [auth_info_val, pathGet, getItem, PyDict.lookup]
  · rw [Rat.floor_intCast_div_natCast]
    decide

set_option maxRecDepth 16384 in
/-- C2 amended, witnessed at gas limit 100001 (fee 2500). -/
theorem fee_amount_truncated_witness :
    (0 : ℤ) ≤ 100001 ∧ (100001 : ℤ) ≤ 2 ^ 52 ∧
    pathGet ctxFee ["auth_info", "fee", "amount"]
      = .ok (.list (.ofList [.dict (.ofList [
          ("denom", .str uakt),
          ("amount", .str (intStr ⌊((25 * 100001 : ℤ) : ℚ) / ((1000 : ℕ) : ℚ)⌋))])])) :=
  ⟨by norm_num, by norm_num,
    (fee_amount_truncated w0 [] info0 100001 (by norm_num) (by norm_num)).1 ctxFee rfl⟩

set_option maxRecDepth 16384 in
/-- C3 fails as stated: a transaction with an empty message list and gas
limit 0 is assembled without any error (there is no EmptyTransactionError
anywhere in the code). -/
theorem empty_transaction_accepted :
    create_transaction gasPriceDefault w0 [] info0 0 = .ok ctx0 ∧
    pathGet ctx0 ["body", "messages"] = .ok (.list .nil) ∧
    pathGet ctx0 ["auth_info", "fee", "gas_limit"] = .ok (.str "0") := ⟨rfl, rfl, rfl⟩

/-- C3 amended: create_transaction validates nothing — whenever the fee
arithmetic returns (it does for every messages list, including the empty
one, and for every gas limit a chain could see, including zero and
negative values) the transaction is assembled with the inputs embedded
verbatim; the only failure path is the OverflowError that float() raises
on an astronomically large gas limit (≳ 2¹⁰²⁴, e.g. 10⁴⁰⁰), which is an
arithmetic accident, not validation. -/
theorem create_transaction_no_validation :
    (∀ (gp : ℤ × ℤ) (w : Wallet) (msgs : List PyVal) (info : TransactionInfo)
        (g amt : ℤ), gas_amount gp g = .ok amt →
      create_transaction gp w msgs info g = .ok (.dict (.ofList [
        ("body", .dict (.ofList [
          ("messages", .list (.ofList msgs)),
          ("memo", .str info.memo),
          ("timeout_height", .str "0"),
          ("extension_options", .list .nil),
          ("non_critical_extension_options", .list .nil)])),
        ("auth_info", auth_info_val amt w g info.sequence),
        ("signatures", .list .nil)]))) ∧
    create_transaction gasPriceDefault w0 [] info0 (10 ^ 400)
      = .error (.overflowError "int too large to convert to float") := by
  refine ⟨?_, ?_⟩
  · intro gp w msgs info g amt h
    unfold create_transaction
    rw [h]
    rfl
  · have hten : (2 : ℤ) ^ 1024 ≤ 10 ^ 400 := by
      have h1 : (2 : ℤ) ^ 1024 ≤ 2 ^ 1200 := pow_le_pow_right₀ (by norm_num) (by norm_num)
      have h2 : (10 : ℤ) ^ 400 = 2 ^ 400 * 5 ^ 400 := by
        rw [show (10 : ℤ) = 2 * 5 by norm_num, mul_pow]
      have h3 : (2 : ℤ) ^ 800 = 4 ^ 400 := by
        rw [show (4 : ℤ) = 2 ^ 2 by norm_num, ← pow_mul]
      have h4 : (4 : ℤ) ^ 400 ≤ 5 ^ 400 := pow_le_pow_left (by norm_num) (by norm_num) 400
      have h5 : (2 : ℤ) ^ 1200 = 2 ^ 400 * 2 ^ 800 := by rw [← pow_add]
      have h6 : (0 : ℤ) ≤ 2 ^ 400 := by positivity
      calc (2 : ℤ) ^ 1024 ≤ 2 ^ 1200 := h1
      _ = 2 ^ 400 * 2 ^ 800 := h5
      _ = 2 ^ 400 * 4 ^ 400 := by rw [h3]
      _ ≤ 2 ^ 400 * 5 ^ 400 := mul_le_mul_of_nonneg_left h4 h6
      _ = 10 ^ 400 := h2.symm
    unfold create_transaction gas_amount
    rw [floatOfInt_overflow hten, except_bind_error]
    rfl

set_option maxRecDepth 16384 in
/-- C3 amended, witnessed at the empty message list with gas limit 0. -/
theorem create_transaction_no_validation_witness :
    gas_amount gasPriceDefault 0 = .ok 0 ∧
    create_transaction gasPriceDefault w0 [] info0 0 = .ok (.dict (.ofList [
      ("body", .dict (.ofList [
        ("messages", .list (.ofList [])),
        ("memo", .str info0.memo),
        ("timeout_height", .str "0"),
        ("extension_options", .list .nil),
        ("non_critical_extension_options", .list .nil)])),
      ("auth_info", auth_info_val 0 w0 0 info0.sequence),
      ("signatures", .list .nil)])) :=
  ⟨rfl, create_transaction_no_validation.1 gasPriceDefault w0 [] info0 0 0 rfl⟩

/-- C4 amended: a response with an "error" field raises the module's
generic AkashTransactionError, whose message is "Broadcast failed: "
followed by the f-string rendering of the error value (the chain's code
and message survive only inside that string, not as fields of a dedicated
ChainRejectionError, which does not exist in the code); a response without
an "error" field returns its "result" value. -/
theorem broadcast_result_paths (resp : PyDict) :
    (∀ e, resp.lookup "error" = some e →
      broadcast_interpret resp
        = .error (.akashTransactionError ("Broadcast failed: " ++ pyStrOf e))) ∧
    (resp.lookup "error" = none → ∀ r, resp.lookup "result" = some r →
      broadcast_interpret resp = .ok r) := by
  constructor
  · intro e he
    simp [broadcast_interpret, he]
  · intro hn r hr
    simp [broadcast_interpret, hn, hr]

/-- C4 amended, witnessed on a rejection response and a success
response. -/
theorem broadcast_result_paths_witness :
    broadcast_interpret (.ofList [("error",
        .dict (.ofList [("code", .int 5), ("message", .str "boom")]))])
      = .error (.akashTransactionError ("Broadcast failed: "
          ++ pyStrOf (.dict (.ofList [("code", .int 5), ("message", .str "boom")])))) ∧
    broadcast_interpret (.ofList [("result", .dict (.ofList [("hash", .str "ABCD")]))])
      = .ok (.dict (.ofList [("hash", .str "ABCD")])) :=
  ⟨(broadcast_result_paths (.ofList [("error",
      .dict (.ofList [("code", .int 5), ("message", .str "boom")]))])).1 _ rfl,
    (broadcast_result_paths (.ofList [("result",
      .dict (.ofList [("hash", .str "ABCD")]))])).2 rfl _ rfl⟩

/-- C4 fails as stated: for the error response with code 5 and message
"boom", the exception raised is the generic AkashTransactionError whose
message merely embeds the repr of the error dict — not a ChainRejectionError
carrying the code and message as data. -/
theorem broadcast_error_generic :
    broadcast_interpret (.ofList [("error",
        .dict (.ofList [("code", .int 5), ("message", .str "boom")]))])
      = .error (.akashTransactionError
          "Broadcast failed: \x7b\x27code\x27: 5, \x27message\x27: \x27boom\x27\x7d") := rfl

/-- C5 amended: when the account query response has no "account" field the
resolver silently returns account_number 0 and sequence 0 — it does not
crash, but it also surfaces no error (no UnknownAccountError exists in the
code). -/
theorem missing_account_returns_zero (data : PyDict)
    (h : data.lookup "account" = none) :
    get_account_info data = .ok (0, 0) := by
  simp [get_account_info, h, pyToInt, PyDict.lookup, except_bind_ok]

/-- C5 amended, witnessed on the empty response. -/
theorem missing_account_returns_zero_witness :
    get_account_info .nil = .ok (0, 0) :=
  missing_account_returns_zero .nil rfl

/-- C5 fails as stated: a response without an account yields a normal
(0, 0) result, not an UnknownAccountError. -/
theorem missing_account_silent_zero :
    get_account_info (.ofList [("height", .str "100")]) = .ok (0, 0) := rfl

/-- C8 amended: the message builders validate nothing — create_bid_msg
succeeds on every price string, and create_deployment_msg on every deposit
string (failing only if the SDL itself cannot be dumped); both merely
strip every occurrence of "uakt" from the amount and tag it with denom
"uakt".  No InvalidAmountError exists in the code. -/
theorem amount_fields_unvalidated :
    (∀ (bidder : String) (order_id : PyVal) (price : String),
      create_bid_msg bidder order_id price = .dict (.ofList [
        ("@type", .str "/akash.market.v1beta4.MsgCreateBid"),
        ("order", order_id),
        ("provider", .str bidder),
        ("price", .dict (.ofList [
          ("denom", .str uakt),
          ("amount", .str (pyReplace price uakt ""))]))])) ∧
    (∀ (owner : String) (sdl : PyVal) (deposit : String) (m : PyVal),
      create_deployment_msg owner sdl deposit = .ok m →
      getItem m "deposit" = .ok (.dict (.ofList [
        ("denom", .str uakt),
        ("amount", .str (pyReplace deposit uakt ""))]))) := by
  constructor
  · intro b o p
    rfl
  · intro o sdl dep m hm
    unfold create_deployment_msg at hm
    cases hd : dumps false sepItemD sepKVD sdl with
    | error e => rw [hd] at hm; simp [Except.map] at hm
    | ok s =>
        rw [hd] at hm
        simp only [Except.map] at hm
        cases hm
        rfl

/-- C8 amended, witnessed on deposit "abcuakt". -/
theorem amount_fields_unvalidated_witness :
    getItem c8msg "deposit" = .ok (.dict (.ofList [
      ("denom", .str uakt),
      ("amount", .str (pyReplace "abcuakt" uakt ""))])) :=
  amount_fields_unvalidated.2 "akash1o" (.dict .nil) "abcuakt" c8msg rfl

/-- C8 fails as stated: a price with no parsing numeric part is accepted
and embedded verbatim, with no InvalidAmountError. -/
theorem invalid_amount_accepted :
    create_bid_msg "akash1bidder" (.dict .nil) "notanumber"
      = .dict (.ofList [
        ("@type", .str "/akash.market.v1beta4.MsgCreateBid"),
        ("order", .dict .nil),
        ("provider", .str "akash1bidder"),
        ("price", .dict (.ofList [
          ("denom", .str "uakt"),
          ("amount", .str "notanumber")]))]) := rfl

/-- C9: _sdl_to_groups ignores the SDL — every input yields the identical
constant single group (name "default", cpu 1000, memory 1073741824,
storage 1073741824, count 1, price 1000 uakt) — and two deployment
messages built from different SDLs (same owner and deposit) agree on every
field except the version fingerprint. -/
theorem groups_constant_version_only :
    (∀ sdl1 sdl2 : PyVal, sdl_to_groups sdl1 = sdl_to_groups sdl2) ∧
    (∀ sdl : PyVal, sdl_to_groups sdl = .list (.ofList [.dict (.ofList [
      ("name", .str "default"),
      ("requirements", dict1 "signed_by" (.dict (.ofList [
        ("all_of", .list .nil),
        ("any_of", .list .nil)]))),
      ("resources", .list (.ofList [.dict (.ofList [
        ("resources", .dict (.ofList [
          ("cpu", dict1 "units" (dict1 "val" (.str "1000"))),
          ("memory", dict1 "quantity" (dict1 "val" (.str "1073741824"))),
          ("storage", .list (.ofList [.dict (.ofList [
            ("name", .str "default"),
            ("quantity", dict1 "val" (.str "1073741824"))])]))])),
        ("count", .int 1),
        ("price", .dict (.ofList [
          ("denom", .str "uakt"),
          ("amount", .str "1000")]))])]))])])) ∧
    (∀ (owner deposit : String) (sdl1 sdl2 m1 m2 : PyVal),
      create_deployment_msg owner sdl1 deposit = .ok m1 →
      create_deployment_msg owner sdl2 deposit = .ok m2 →
      removeKeyV m1 "version" = removeKeyV m2 "version") := by
  refine ⟨fun _ _ => rfl, fun _ => rfl, ?_⟩
  intro o dep sdl1 sdl2 m1 m2 h1 h2
  unfold create_deployment_msg at h1 h2
  cases hd1 : dumps false sepItemD sepKVD sdl1 with
  | error e => rw [hd1] at h1; simp [Except.map] at h1
  | ok s1 =>
      cases hd2 : dumps false sepItemD sepKVD sdl2 with
      | error e => rw [hd2] at h2; simp [Except.map] at h2
      | ok s2 =>
          rw [hd1] at h1
          rw [hd2] at h2
          simp only [Except.map] at h1 h2
          cases h1
          cases h2
          rfl

/-- C9, witnessed on the empty SDL and a one-service SDL. -/
theorem groups_constant_version_only_witness :
    removeKeyV c9m1 "version" = removeKeyV c9m2 "version" :=
  groups_constant_version_only.2.2 "akash1o" "10000000uakt"
    (.dict .nil) (.dict (.ofList [("services", .str "web")])) c9m1 c9m2 rfl rfl

/-- C6 amended: the body and auth_info canonicalizations used by signing
are stable — any two values holding the same field values (possibly
inserted in different key orders, i.e. normalizing identically) produce
byte-identical _encode_body and _encode_auth_info output; encoding the
same value twice is trivially identical since the encoders are pure.  The
third canonical artifact the claim names, the encoded signing payload, is
never produced (see the counterexample). -/
theorem canonical_encoding_stable {b1 b2 a1 a2 : PyVal}
    (hb : jsonEquiv b1 b2) (ha : jsonEquiv a1 a2) :
    encode_body b1 = encode_body b2 ∧ encode_auth_info a1 = encode_auth_info a2 := by
  unfold encode_body encode_auth_info
  rw [dumps_jsonEquiv sepItemD sepKVD hb, dumps_jsonEquiv sepItemD sepKVD ha]
  exact ⟨rfl, rfl⟩

/-- C6 amended, witnessed on two dicts inserted in opposite key orders. -/
theorem canonical_encoding_stable_witness :
    encode_body (.dict (.ofList [("b", .int 1), ("a", .str "x")]))
      = encode_body (.dict (.ofList [("a", .str "x"), ("b", .int 1)])) ∧
    encode_auth_info (.dict (.ofList [("denom", .str "uakt"), ("amount", .str "5")]))
      = encode_auth_info (.dict (.ofList [("amount", .str "5"), ("denom", .str "uakt")])) :=
  canonical_encoding_stable rfl rfl

set_option maxRecDepth 16384 in
/-- C6 fails as stated: the canonical byte encoding of the signing payload
is never produced — at this concrete transaction the payload encoding step
(lines 261-269 of transaction.py) raises TypeError, because sign_doc holds
bytes values. -/
theorem signing_payload_never_encoded :
    create_transaction gasPriceDefault w0 [] info0 200000 = .ok tx200k ∧
    sign_bytes tx200k info0 = .error (.typeError typeErrorBytes) := ⟨rfl, rfl⟩

/-- C7 amended: two transactions assembled from the same wallet, messages
and gas limit whose tx_info differ only in sequence have different
_encode_auth_info canonical encodings; but nothing ever enters the signing
hash and no signatures are produced — sign_transaction raises the
identical TypeError for both (see the counterexample). -/
theorem auth_encoding_sequence_sensitive (amt : ℤ) (w : Wallet) (g : ℤ)
    {s1 s2 : Nat} (hne : s1 ≠ s2) :
    encode_auth_info (auth_info_val amt w g s1)
      ≠ encode_auth_info (auth_info_val amt w g s2) := by
  intro h
  rw [encode_auth_ok, encode_auth_ok] at h
  have h2 := textBytes_injective (Except.ok.inj h)
  exact hne (natChars_injective (auth_render_inj w amt g h2))

/-- C7 amended, witnessed at sequences 2 and 3 (fee amount 5000, the one
create_transaction computes at gas limit 200000). -/
theorem auth_encoding_sequence_sensitive_witness :
    encode_auth_info (auth_info_val 5000 w0 200000 2)
      ≠ encode_auth_info (auth_info_val 5000 w0 200000 3) :=
  auth_encoding_sequence_sensitive 5000 w0 200000 (by decide)

set_option maxRecDepth 16384 in
/-- C7 fails as stated: signing two transactions that differ only in
sequence (2 versus 3) produces identical results — the same TypeError —
so the resulting signatures do not differ; no signature exists at all. -/
theorem signatures_not_distinct :
    sign_transaction (fun l => l) (fun _ _ _ => []) [] w0 tx200k info0
      = sign_transaction (fun l => l) (fun _ _ _ => []) [] w0 tx200k1 info1 ∧
    sign_transaction (fun l => l) (fun _ _ _ => []) [] w0 tx200k info0
      = .error (.typeError typeErrorBytes) := ⟨rfl, rfl⟩

end AkashApi
